import Mathlib

/-!
# rss-viewer: the ingestion pipeline of package `aggregator`

A shallow embedding of `aggregator/aggregator.go` and of the parts of package
`db` it calls (`db/model.go`, `db/batch.go`, the two paging queries of
`db/db.go`).

Conventions of the embedding.

* A `time.Time` is the instant it denotes, an integer number of nanoseconds
  counted from Go's zero `time.Time` (January 1, year 1, 00:00:00 UTC).
  `Before` and `After` compare instants, as in Go.  Instants before the zero
  value are negative numbers.
* Channels are unbuffered; a send is recorded when the hand-off completes.
  What a goroutine sends on a channel is the list of the values it sent, in
  order.  A send of the scheduler made after `done` is closed completes only
  if a worker still takes it; otherwise the scheduler stays in it, and the
  send is recorded as blocked.
* Everything the code obtains from outside (the parsed feed, the wall clock,
  the answers of the database, the state of the `done` channel) is an explicit
  input.
-/

namespace RssViewer

/-! ## Time -/

/-- An instant, in nanoseconds since Go's zero `time.Time`. -/
abbrev Time := Int

/-- The zero value of `time.Time`; `var maxTime time.Time` starts here. -/
def zeroTime : Time := 0

/-- The duration `time.Second`, in nanoseconds. -/
def Second : Int := 1000000000

/-- Go's `t.After(u)`. -/
def After (t u : Time) : Bool := decide (u < t)

/-- Go's `t.Before(u)`. -/
def Before (t u : Time) : Bool := decide (t < u)

/-! ## Data model (`db/model.go`, and the fields of `gofeed` the code reads) -/

/-- The struct `db.ModelSource`. -/
structure ModelSource where
  Id : Int
  Url : String
  LastTimeParsed : Time
  deriving DecidableEq, Repr

/-- The struct `db.ModelFeed`. -/
structure ModelFeed where
  Id : Int
  SourceId : Int
  Title : String
  Description : String
  Category : String
  SourceLink : String
  ImageLink : String
  Datetime : Time
  deriving DecidableEq, Repr

/-- The struct `gofeed.Image`, as far as the code reads it. -/
structure FeedImage where
  URL : String
  deriving DecidableEq, Repr

/-- The struct `gofeed.Item`, as far as the code reads it.  The two time
fields are pointers in Go: `none` is `nil`. -/
structure Item where
  Title : String
  Description : String
  Link : String
  UpdatedParsed : Option Time
  PublishedParsed : Option Time
  Image : Option FeedImage
  Categories : List String
  deriving DecidableEq, Repr

/-- The struct `gofeed.Feed`: the document-level image and the items. -/
structure Feed where
  Image : Option FeedImage
  Items : List Item
  deriving DecidableEq, Repr

/-- Errors of the embedding: the two sentinels of package `db` the pipeline can
meet, and any error reported by a collaborator (database driver, feed parser). -/
inductive Err where
  | ErrDatabaseNotInit
  | ErrTxClosed
  | external
  deriving DecidableEq, Repr

/-- The default watermark `db.defaultSourceTime`: `0001-01-01 00:00:00`, which
is the zero `time.Time`.  `InsertSource` stores it for every new source. -/
def defaultSourceTime : Time := zeroTime

/-! ## `parseFeeds` (aggregator.go, lines 79-140) -/

/-- Lines 101-106: the timestamp of an item.  `now` is what `time.Now()`
returned while this item was processed. -/
def feedTime (now : Time) (item : Item) : Time :=
  match item.UpdatedParsed with
  | some u => u
  | none =>
    match item.PublishedParsed with
    | some p => p
    | none => now

/-- Lines 115-130: the `db.ModelFeed` built for an item.  `Id` is not set by
the code and keeps Go's zero value. -/
def buildFeed (source : ModelSource) (now : Time) (item : Item) : ModelFeed :=
  let feed : ModelFeed :=
    { Id := 0, SourceId := source.Id, Title := item.Title, Description := item.Description,
      Category := "", SourceLink := "", ImageLink := "", Datetime := feedTime now item }
  let feed :=
    match item.Categories with
    | c :: _ => { feed with Category := c }
    | [] => feed
  let feed :=
    match item.Image with
    | some image => { feed with ImageLink := image.URL }
    | none => feed
  { feed with SourceLink := item.Link }

/-- The local variables of `parseFeeds` that the range loop changes, and what
it has sent on the feed channel so far. -/
structure ParseState where
  sourceIsUpdated : Bool
  maxTime : Time
  chFeed : List ModelFeed
  deriving DecidableEq, Repr

/-- One iteration of the range loop, lines 94-132. -/
def parseItem (source : ModelSource) (st : ParseState) (now : Time) (item : Item) : ParseState :=
  if item.Title = "" then st
  else
    let ft := feedTime now item
    if After ft source.LastTimeParsed then
      let maxTime := if Before st.maxTime ft then ft else st.maxTime
      { sourceIsUpdated := true, maxTime := maxTime,
        chFeed := st.chFeed ++ [buildFeed source now item] }
    else st

/-- The range loop over `feeds.Items`.  `clock i` is the reading `time.Now()`
gives in the iteration for the item at position `i`. -/
def parseLoop (clock : Nat → Time) (source : ModelSource) (items : List (Nat × Item))
    (st : ParseState) : ParseState :=
  items.foldl (fun st p => parseItem source st (clock p.1) p.2) st

/-- What a call of `parseFeeds` leaves behind. -/
structure ParseResult where
  err : Option Err
  source : ModelSource
  chFeed : List ModelFeed
  chSource : List ModelSource
  deriving DecidableEq, Repr

/-- The function `parseFeeds`.  `parsed` is the answer of
`parser.ParseURLWithContext`. -/
def parseFeeds (parsed : Except Err Feed) (clock : Nat → Time) (source : ModelSource) :
    ParseResult :=
  match parsed with
  | .error e => { err := some e, source := source, chFeed := [], chSource := [] }
  | .ok feeds =>
    let st := parseLoop clock source feeds.Items.enum
      { sourceIsUpdated := false, maxTime := zeroTime, chFeed := [] }
    if st.sourceIsUpdated then
      let source := { source with LastTimeParsed := st.maxTime }
      { err := none, source := source, chFeed := st.chFeed, chSource := [source] }
    else
      { err := none, source := source, chFeed := st.chFeed, chSource := [] }

/-- The items of a feed that qualify for a source with watermark `T`, in the
words of the specification: non-empty title and timestamp strictly later than
`T`.  Each item is paired with its position in the feed. -/
def qualifying (clock : Nat → Time) (T : Time) (items : List (Nat × Item)) : List (Nat × Item) :=
  items.filter (fun p => decide (p.2.Title ≠ "" ∧ T < feedTime (clock p.1) p.2))

/-- The timestamps of the feed items sent on the feed channel. -/
def emittedTimes (r : ParseResult) : List Time := r.chFeed.map (fun f => f.Datetime)

/-- The invariant of the range loop of `parseFeeds` for a source with
watermark `T`. -/
def LoopInv (T : Time) (st : ParseState) : Prop :=
  (st.sourceIsUpdated = true ↔ st.chFeed ≠ []) ∧
  (∀ f ∈ st.chFeed, f.Datetime ≤ st.maxTime) ∧
  (st.maxTime = zeroTime ∨ ∃ f ∈ st.chFeed, f.Datetime = st.maxTime) ∧
  zeroTime ≤ st.maxTime ∧
  (∀ f ∈ st.chFeed, T < f.Datetime)

/-- One day, in nanoseconds. -/
def Day : Int := 86400 * Second

/-- The scenario of C1: watermark 2024-01-01, item A updated 2023-12-31, item
B published 2024-01-02.   -/
def scenarioSource : ModelSource := { Id := 7, Url := "http://s", LastTimeParsed := 738885 * Day }

/-- The feed of the scenario. -/
def scenarioFeed : Feed :=
  { Image := none,
    Items := [
      { Title := "A", Description := "", Link := "", UpdatedParsed := some (738884 * Day),
        PublishedParsed := none, Image := none, Categories := [] },
      { Title := "B", Description := "", Link := "", UpdatedParsed := none,
        PublishedParsed := some (738886 * Day), Image := none, Categories := [] }] }

/-- A feed whose document carries an image and whose only item carries none. -/
def imageFeed : Feed :=
  { Image := some { URL := "http://s/logo.png" },
    Items := [
      { Title := "B", Description := "d", Link := "http://s/b", UpdatedParsed := none,
        PublishedParsed := some (738886 * Day), Image := none, Categories := ["news", "world"] }] }

/-- A source whose watermark lies ten nanoseconds before the zero time. -/
def earlySource : ModelSource := { Id := 1, Url := "http://old", LastTimeParsed := -10 }

/-- A feed with one item, updated five nanoseconds before the zero time. -/
def earlyFeed : Feed :=
  { Image := none,
    Items := [
      { Title := "A", Description := "", Link := "", UpdatedParsed := some (-5),
        PublishedParsed := none, Image := none, Categories := [] }] }

/-! ## The batch of package `db` (db/batch.go) -/

/-- A statement queued in a `pgx.Batch`, with its arguments. -/
inductive Stmt where
  /-- The statement `UPDATE sources SET last_time_parsed=$1 WHERE id=$2`. -/
  | updateSource (lastTimeParsed : Time) (id : Int)
  /-- The statement `INSERT INTO feeds (title,description,category,image_link,source_link,
  datetime,source_id) VALUES ($1, $2, $3, $4,$5,$6,$7)`. -/
  | insertFeed (title description category imageLink sourceLink : String) (datetime : Time)
      (sourceId : Int)
  deriving DecidableEq, Repr

/-- How the database answers the execution of one batch: `pool.Begin` fails,
`br.Exec` fails, `tx.Commit` fails, or all three succeed. -/
inductive ExecOutcome where
  | beginFails
  | sendFails
  | commitFails
  | succeeds
  deriving DecidableEq, Repr

/-- The calls the publisher makes, in the order it makes them: the functions
and methods of package `db`, and below them the calls on the connection pool
and on the transaction. -/
inductive Call where
  | NewBatch
  | UpdateSource (source : ModelSource)
  | InsertFeed (feed : ModelFeed)
  | Exec
  | Rollback
  | poolBegin
  | txSendBatch (batch : List Stmt)
  | txCommit
  | txRollback
  deriving DecidableEq, Repr

/-- The struct `dbBatch`.  `tx` tells whether the field `tx` is set (non-nil);
`batch` is the queue of the `pgx.Batch`. -/
structure dbBatch where
  tx : Bool
  batch : List Stmt
  deriving DecidableEq, Repr

/-- The method `InsertFeed`. -/
def dbBatch.InsertFeed (b : dbBatch) (feed : ModelFeed) : dbBatch :=
  { b with batch := b.batch ++ [Stmt.insertFeed feed.Title feed.Description feed.Category
      feed.ImageLink feed.SourceLink feed.Datetime feed.SourceId] }

/-- The method `UpdateSource`. -/
def dbBatch.UpdateSource (b : dbBatch) (source : ModelSource) : dbBatch :=
  { b with batch := b.batch ++ [Stmt.updateSource source.LastTimeParsed source.Id] }

/-- The method `Exec`: the batch afterwards, the error returned, and the calls
made on the pool and the transaction. -/
def dbBatch.Exec (o : ExecOutcome) (b : dbBatch) : dbBatch × Option Err × List Call :=
  match o with
  | .beginFails => (b, some Err.external, [Call.poolBegin])
  | .sendFails =>
    ({ b with tx := true }, some Err.external, [Call.poolBegin, Call.txSendBatch b.batch])
  | .commitFails =>
    ({ b with tx := true }, some Err.external,
      [Call.poolBegin, Call.txSendBatch b.batch, Call.txCommit])
  | .succeeds =>
    ({ b with tx := true }, none, [Call.poolBegin, Call.txSendBatch b.batch, Call.txCommit])

/-- The method `Rollback`: the error returned when no transaction was begun,
and the call made on the transaction otherwise (its result is not used by the
publisher). -/
def dbBatch.Rollback (b : dbBatch) : Option Err × List Call :=
  if b.tx = false then (some Err.ErrTxClosed, [])
  else (none, [Call.txRollback])

/-- The function `NewBatch`.  `dbReady` tells whether the package variable
`db` is set (non-nil). -/
def NewBatch (dbReady : Bool) : Except Err dbBatch :=
  if dbReady = false then .error Err.ErrDatabaseNotInit
  else .ok { tx := false, batch := [] }

/-! ## `publishThread` (aggregator.go, lines 142-202) -/

/-- The two pending slices of `publishThread`. -/
structure PubState where
  sources : List ModelSource
  feeds : List ModelFeed
  deriving DecidableEq, Repr

/-- What one call of the closure `publish` leaves behind. -/
structure PublishResult where
  st : PubState
  err : Option Err
  calls : List Call
  deriving DecidableEq, Repr

/-- The closure `publish`, lines 150-177. -/
def publish (dbReady : Bool) (o : ExecOutcome) (st : PubState) : PublishResult :=
  if st.sources.length + st.feeds.length = 0 then
    { st := st, err := none, calls := [] }
  else
    match NewBatch dbReady with
    | .error e => { st := st, err := some e, calls := [Call.NewBatch] }
    | .ok batch =>
      let batch := st.sources.foldl dbBatch.UpdateSource batch
      let queued := st.sources.map Call.UpdateSource
      let st := { st with sources := [] }
      let batch := st.feeds.foldl dbBatch.InsertFeed batch
      let queued := queued ++ st.feeds.map Call.InsertFeed
      let st := { st with feeds := [] }
      let r := batch.Exec o
      if r.2.1 = none then
        { st := st, err := r.2.1, calls := Call.NewBatch :: queued ++ Call.Exec :: r.2.2 }
      else
        { st := st, err := r.2.1,
          calls := Call.NewBatch :: queued ++ Call.Exec :: r.2.2 ++
            Call.Rollback :: (r.1.Rollback).2 }

/-- What the `select` of `publishThread` services.  The two events that run
`publish` carry the answer the database gives to that flush. -/
inductive PubEvent where
  | done (o : ExecOutcome)
  | tick (o : ExecOutcome)
  | source (source : ModelSource)
  | feed (feed : ModelFeed)
  deriving DecidableEq, Repr

/-- The publisher goroutine: its pending slices, the calls of every `publish`
it has run (one list per run, in order), and whether it has returned. -/
structure PubRun where
  st : PubState
  flushes : List (List Call)
  exited : Bool
  deriving DecidableEq, Repr

/-- The publisher as `publishThread` starts it. -/
def PubRun.init : PubRun := { st := { sources := [], feeds := [] }, flushes := [], exited := false }

/-- One turn of the `for`/`select` loop, lines 182-201. -/
def publishStep (dbReady : Bool) (r : PubRun) (e : PubEvent) : PubRun :=
  if r.exited then r
  else
    match e with
    | .done o =>
      let p := publish dbReady o r.st
      { st := p.st, flushes := r.flushes ++ [p.calls], exited := true }
    | .tick o =>
      let p := publish dbReady o r.st
      { st := p.st, flushes := r.flushes ++ [p.calls], exited := false }
    | .source s => { r with st := { r.st with sources := r.st.sources ++ [s] } }
    | .feed f => { r with st := { r.st with feeds := r.st.feeds ++ [f] } }

/-- The goroutine `publishThread` servicing a sequence of events. -/
def publishThread (dbReady : Bool) (events : List PubEvent) (r : PubRun) : PubRun :=
  events.foldl (publishStep dbReady) r

/-- Whether an event is the servicing of `done`. -/
def PubEvent.isDone : PubEvent → Bool
  | .done _ => true
  | _ => false

/-- Whether an event is a timer tick. -/
def PubEvent.isTick : PubEvent → Bool
  | .tick _ => true
  | _ => false

/-- The events after the last timer tick: what arrived since the last flush. -/
def sinceLastTick (events : List PubEvent) : List PubEvent :=
  (events.reverse.takeWhile (fun e => !e.isTick)).reverse

/-- The source updates among a sequence of events, in arrival order. -/
def arrivedSources (events : List PubEvent) : List ModelSource :=
  events.filterMap (fun e => match e with
    | .source s => some s
    | _ => none)

/-- The feed items among a sequence of events, in arrival order. -/
def arrivedFeeds (events : List PubEvent) : List ModelFeed :=
  events.filterMap (fun e => match e with
    | .feed f => some f
    | _ => none)

/-- The calls of a flush that queue a statement. -/
def queuedIn (calls : List Call) : List Call :=
  calls.filter (fun c => match c with
    | .UpdateSource _ => true
    | .InsertFeed _ => true
    | _ => false)

/-- A feed item used in the examples. -/
def sampleFeed : ModelFeed :=
  { Id := 0, SourceId := 7, Title := "B", Description := "", Category := "", SourceLink := "",
    ImageLink := "", Datetime := 738886 * Day }

/-! ## The two paging queries of package `db` (db/db.go, lines 57-92) -/

/-- The answer of `SELECT COUNT(id) FROM sources` on a table of sources. -/
def countQuery (table : List ModelSource) : Int := table.length

/-- The answer of `SELECT id, url, last_time_parsed FROM sources ORDER BY id
LIMIT $1 OFFSET $2` on a table of sources. -/
def pageQuery (table : List ModelSource) (limit offset : Int) : List ModelSource :=
  ((table.insertionSort (fun a b => a.Id ≤ b.Id)).drop offset.toNat).take limit.toNat

/-! ## The scheduler `loop` (aggregator.go, lines 204-259) and `New` -/

/-- The fields of the struct `aggService` that are plain values. -/
structure aggService where
  threads : Int
  sourceTimeout : Int
  deriving DecidableEq, Repr

/-- The constructor `New`, lines 261-276. -/
def New (threads : Int) (sourceTimeout : Int) : aggService :=
  { threads := if threads < 1 then 1 else threads,
    sourceTimeout := if sourceTimeout < Second then Second else sourceTimeout }

/-- The local `sleepTime` of `loop`: `5 * time.Second`. -/
def sleepTime : Int := 5 * Second

deriving instance DecidableEq for Except

/-- What the scheduler does, one action at a time. -/
inductive Action where
  /-- a call of the closure `needExit`, with its result -/
  | needExit (closed : Bool)
  /-- a call of `db.GetSourceCount`, with its result -/
  | GetSourceCount (r : Except Err Int)
  /-- a call of `db.GetSources(limit, offset)`, with its result -/
  | GetSources (limit offset : Int) (r : Except Err (List ModelSource))
  /-- the call `log.Printf("DB ERROR (source count): %v", err)` -/
  | logError
  /-- a call of `time.Sleep(d)` -/
  | Sleep (d : Int)
  /-- the send `agg.chSourceParser <- source`, completed: a worker took the source -/
  | dispatch (source : ModelSource)
  /-- the send `agg.chSourceParser <- source` that no worker takes any more: the
  scheduler stays in it -/
  | sendBlocked (source : ModelSource)
  deriving DecidableEq, Repr

/-- The surroundings of the scheduler.  Actions are numbered 0, 1, 2, ... in
the order the scheduler performs them; each field tells what the action with
a given number meets: whether `done` is closed by then, what the database
answers, and how long the action takes, in nanoseconds (for a sleep: how much
longer than asked).  `taken` matters for a send made when `done` is closed:
a worker that comes back to its `select` then (lines 67-70) finds both cases
ready and may take the source or return, and once every worker has returned
nobody takes it.  While `done` is open the workers are in their loop and take
every source offered. -/
structure World where
  done : Nat → Bool
  taken : Nat → Bool
  GetSourceCount : Nat → Except Err Int
  GetSources : Nat → Int → Int → Except Err (List ModelSource)
  cost : Nat → Nat

/-- An action of the scheduler, with its number and the time it began. -/
structure Entry where
  step : Nat
  time : Time
  action : Action
  deriving DecidableEq, Repr

/-- The scheduler between two actions: the number of the next action, the
clock, and what it has done so far. -/
structure Sched where
  step : Nat
  now : Time
  trace : List Entry
  deriving Repr

/-- Perform one action that takes `w.cost` on top of `extra`. -/
def Sched.act (w : World) (s : Sched) (a : Action) (extra : Int) : Sched :=
  { step := s.step + 1,
    now := s.now + extra + w.cost s.step,
    trace := s.trace ++ [{ step := s.step, time := s.now, action := a }] }

/-- The closure `needExit`, lines 211-218. -/
def needExit (w : World) (s : Sched) : Bool × Sched :=
  (w.done s.step, s.act w (Action.needExit (w.done s.step)) 0)

/-- The call `time.Sleep(d)`. -/
def Sleep (w : World) (d : Int) (s : Sched) : Sched :=
  s.act w (Action.Sleep d) d

/-- How a piece of the scheduler ends: its loop ran to its end, or the
function returned, or the scheduler stays blocked for ever in a send, or the
fuel of the embedding ran out while it was still running. -/
inductive Ctl where
  | completed
  | returned
  | blocked
  | outOfFuel
  deriving DecidableEq, Repr

/-- Lines 247-250: the range loop that sends the sources of a page on the
dispatch channel, one blocking send after the other, with no poll of `done`.
A send made while `done` is open, or taken by a worker all the same, completes;
otherwise the scheduler stays in it. -/
def dispatchAll (w : World) : List ModelSource → Sched → Ctl × Sched
  | [], s => (Ctl.completed, s)
  | source :: rest, s =>
    if w.done s.step = true ∧ w.taken s.step = false then
      (Ctl.blocked, s.act w (Action.sendBlocked source) 0)
    else dispatchAll w rest (s.act w (Action.dispatch source) 0)

/-- Lines 235-251: the loop `for offset = 0; offset < count; offset += limit`. -/
def pages (w : World) (limit count : Int) : Nat → Int → Sched → Ctl × Sched
  | 0, _, s => (Ctl.outOfFuel, s)
  | fuel + 1, offset, s =>
    if offset < count then
      let e := needExit w s
      if e.1 then (Ctl.returned, e.2)
      else
        let r := w.GetSources e.2.step limit offset
        let s := e.2.act w (Action.GetSources limit offset r) 0
        match r with
        | .error _ =>
          let s := s.act w Action.logError 0
          let s := Sleep w sleepTime s
          pages w limit count fuel (offset + limit) s
        | .ok sources =>
          let d := dispatchAll w sources s
          match d.1 with
          | Ctl.completed => pages w limit count fuel (offset + limit) d.2
          | c => (c, d.2)
    else (Ctl.completed, s)

/-- Lines 222-257: one turn of the outer `for`.  It yields how the turn
ended, the value of `startTime` afterwards, and the scheduler afterwards. -/
def cycle (w : World) (agg : aggService) (fuel : Nat) (startTime : Time) (s : Sched) :
    Ctl × Time × Sched :=
  let e := needExit w s
  if e.1 then (Ctl.returned, startTime, e.2)
  else
    let r := w.GetSourceCount e.2.step
    let s := e.2.act w (Action.GetSourceCount r) 0
    match r with
    | .error _ =>
      let s := s.act w Action.logError 0
      let s := Sleep w sleepTime s
      (Ctl.completed, startTime, s)
    | .ok count =>
      let p := pages w agg.threads count fuel 0 s
      match p.1 with
      | Ctl.completed =>
        let endTime := p.2.now
        let s := if Before endTime (startTime + sleepTime) then Sleep w sleepTime p.2 else p.2
        (Ctl.completed, s.now, s)
      | c => (c, startTime, p.2)

/-- The outer `for` of `loop`, for at most `fuel` turns. -/
def loopFrom (w : World) (agg : aggService) : Nat → Time → Sched → Ctl × Sched
  | 0, _, s => (Ctl.outOfFuel, s)
  | fuel + 1, startTime, s =>
    let c := cycle w agg fuel startTime s
    match c.1 with
    | Ctl.completed => loopFrom w agg fuel c.2.1 c.2.2
    | x => (x, c.2.2)

/-- The goroutine `loop`, started at time `t0`: `startTime := time.Now()`,
then the outer `for`. -/
def loop (w : World) (agg : aggService) (fuel : Nat) (t0 : Time) : Ctl × Sched :=
  loopFrom w agg fuel t0 { step := 0, now := t0, trace := [] }

/-- The page requests in a trace: limit and offset of each `GetSources`. -/
def pageRequests (trace : List Entry) : List (Int × Int) :=
  trace.filterMap (fun e => match e.action with
    | .GetSources limit offset _ => some (limit, offset)
    | _ => none)

/-- The sources handed to the dispatch channel in a trace, in order. -/
def dispatched (trace : List Entry) : List ModelSource :=
  trace.filterMap (fun e => match e.action with
    | .dispatch source => some source
    | _ => none)

/-- The times at which the full passes of a trace start: a pass starts when
`GetSourceCount` is called and answers with a count. -/
def passStarts (trace : List Entry) : List Time :=
  trace.filterMap (fun e => match e.action with
    | .GetSourceCount (.ok _) => some e.time
    | _ => none)

/-- What the page requests of a trace brought back: the sources of each page,
and nothing for a request that failed. -/
def pageResults (trace : List Entry) : List (List ModelSource) :=
  trace.filterMap (fun e => match e.action with
    | .GetSources _ _ (.ok sources) => some sources
    | .GetSources _ _ (.error _) => some []
    | _ => none)

/-- Whether an action asks the database for the count or for a page. -/
def Action.isRequest : Action → Bool
  | .GetSourceCount _ => true
  | .GetSources _ _ _ => true
  | _ => false

/-- Whether an action hands a source to the dispatch channel. -/
def Action.isDispatch : Action → Bool
  | .dispatch _ => true
  | _ => false

/-- Whether an action is a send on the dispatch channel, completed or not. -/
def Action.isSend : Action → Bool
  | .dispatch _ => true
  | .sendBlocked _ => true
  | _ => false

/-- Whether an action is a page request that brought back a page. -/
def Action.isPage : Action → Bool
  | .GetSources _ _ (.ok _) => true
  | _ => false

/-- A source used in the examples. -/
def src (id : Int) : ModelSource := { Id := id, Url := "", LastTimeParsed := zeroTime }

/-- A table of five sources, stored out of order. -/
def fiveSources : List ModelSource := [src 3, src 1, src 5, src 2, src 4]

/-- A world with a stable table that answers every query, where `done` is
never closed and every action takes one millisecond. -/
def stableWorld (table : List ModelSource) : World :=
  { done := fun _ => false,
    taken := fun _ => true,
    GetSourceCount := fun _ => .ok (countQuery table),
    GetSources := fun _ limit offset => .ok (pageQuery table limit offset),
    cost := fun _ => 1000000 }

/-- Four sources. -/
def fourSources : List ModelSource := [src 1, src 2, src 3, src 4]

/-- A world with four sources where the request for the page at offset 0
fails and every other request is answered; `done` is never closed and every
action takes one millisecond. -/
def failingPageWorld : World :=
  { done := fun _ => false,
    taken := fun _ => true,
    GetSourceCount := fun _ => .ok (countQuery fourSources),
    GetSources := fun _ limit offset =>
      if offset = 0 then .error Err.external else .ok (pageQuery fourSources limit offset),
    cost := fun _ => 1000000 }

/-- A world with two sources where `done` is closed while action 4 runs, so
that it is closed from action 5 on; a worker that was still busy then takes
the source offered next when it comes back to its `select`. -/
def cancelWorld : World :=
  { done := fun k => decide (5 ≤ k),
    taken := fun _ => true,
    GetSourceCount := fun _ => .ok (countQuery [src 1, src 2]),
    GetSources := fun _ limit offset => .ok (pageQuery [src 1, src 2] limit offset),
    cost := fun _ => 1000000 }

/-- The world `cancelWorld` where every worker has returned by the time `done`
is closed: nobody takes a source any more. -/
def cancelWorldNoTaker : World := { cancelWorld with taken := fun _ => false }

/-- A world with one source where the first count query (action 1) fails and
every later query is answered; `done` is never closed and every action takes
one millisecond. -/
def countFailsOnceWorld : World :=
  { done := fun _ => false,
    taken := fun _ => true,
    GetSourceCount := fun k => if k = 1 then .error Err.external else .ok (countQuery [src 1]),
    GetSources := fun _ limit offset => .ok (pageQuery [src 1] limit offset),
    cost := fun _ => 1000000 }

/-- Every request for the count or for a page in a trace comes right after a
poll of `done` that found it open. -/
def PolledBeforeRequests (w : World) (trace : List Entry) : Prop :=
  ∀ e ∈ trace, e.action.isRequest = true →
    ∃ p ∈ trace, p.step + 1 = e.step ∧ p.action = Action.needExit false ∧ w.done p.step = false

/-- Every send on the dispatch channel in a trace comes right after the page
request that brought its page back or right after the send of the source
before it: nothing, and no poll of `done`, lies between the sends of a page. -/
def SendsFollow (trace : List Entry) : Prop :=
  ∀ d ∈ trace, d.action.isSend = true →
    ∃ p ∈ trace, p.step + 1 = d.step ∧ (p.action.isDispatch = true ∨ p.action.isPage = true)

/-- No poll of a trace found `done` closed and no send of it stayed blocked. -/
def Clean (trace : List Entry) : Prop :=
  ∀ e ∈ trace, e.action ≠ Action.needExit true ∧ ∀ source, e.action ≠ Action.sendBlocked source

/-- The trace of a scheduler that is still running, between two pages:
requests come after a poll, no poll has found `done` closed, no send is
blocked, sends follow their page request, and every source of every page
brought back has been handed over, in order. -/
def Running (w : World) (trace : List Entry) : Prop :=
  PolledBeforeRequests w trace ∧ Clean trace ∧ SendsFollow trace ∧
    dispatched trace = (pageResults trace).flatten

/-- The scheduler in the middle of a page, with the sources `rest` still to
send: as `Running`, except that `rest` is what is missing from the sources
handed over, and that the last action is the page request or a send. -/
def Walking (w : World) (s : Sched) (rest : List ModelSource) : Prop :=
  PolledBeforeRequests w s.trace ∧ Clean s.trace ∧ SendsFollow s.trace ∧
    dispatched s.trace ++ rest = (pageResults s.trace).flatten ∧
    ∃ p ∈ s.trace, p.step + 1 = s.step ∧ (p.action.isDispatch = true ∨ p.action.isPage = true)

/-- The trace of a scheduler that has returned: the trace of a running
scheduler followed by one poll that found `done` closed. -/
def Stopped (w : World) (trace : List Entry) : Prop :=
  ∃ (pre : List Entry) (last : Entry),
    trace = pre ++ [last] ∧ Running w pre ∧ last.action = Action.needExit true

/-- The trace of a scheduler that stays blocked in a send: its last action is
the send of the next source of the page, made with `done` closed and taken by
no worker; the sources handed over before are those of the pages brought back,
in order, up to that source. -/
def Blocked (w : World) (trace : List Entry) : Prop :=
  ∃ (pre : List Entry) (last : Entry) (source : ModelSource) (rest : List ModelSource),
    trace = pre ++ [last] ∧ last.action = Action.sendBlocked source ∧
    w.done last.step = true ∧ w.taken last.step = false ∧
    PolledBeforeRequests w pre ∧ Clean pre ∧ SendsFollow trace ∧
    dispatched pre ++ source :: rest = (pageResults pre).flatten

/-- What holds of a trace according to how the scheduler ended. -/
def Outcome (w : World) (c : Ctl) (trace : List Entry) : Prop :=
  (c = Ctl.returned → Stopped w trace) ∧ (c = Ctl.blocked → Blocked w trace) ∧
    (c ≠ Ctl.returned → c ≠ Ctl.blocked → Running w trace)

/-! # Theorems -/

/-! ## `parseFeeds` -/

theorem buildFeed_fields (source : ModelSource) (now : Time) (item : Item) :
    (buildFeed source now item).Id = 0 ∧
    (buildFeed source now item).SourceId = source.Id ∧
    (buildFeed source now item).Title = item.Title ∧
    (buildFeed source now item).Description = item.Description ∧
    (buildFeed source now item).Datetime = feedTime now item ∧
    (buildFeed source now item).Category = item.Categories.headD "" ∧
    (buildFeed source now item).SourceLink = item.Link ∧
    (buildFeed source now item).ImageLink = (item.Image.map (fun i => i.URL)).getD "" := by
  unfold buildFeed
  cases item.Categories <;> cases item.Image <;> simp

theorem parseItem_chFeed (clock : Nat → Time) (source : ModelSource) (st : ParseState)
    (p : Nat × Item) :
    (parseItem source st (clock p.1) p.2).chFeed =
      st.chFeed ++ (qualifying clock source.LastTimeParsed [p]).map
        (fun q => buildFeed source (clock q.1) q.2) := by
  unfold parseItem qualifying After
  by_cases ht : p.2.Title = ""
  · simp [ht]
  · by_cases hlt : source.LastTimeParsed < feedTime (clock p.1) p.2
    · simp [ht, hlt]
    · simp [ht, hlt]

theorem parseLoop_chFeed (clock : Nat → Time) (source : ModelSource) (items : List (Nat × Item)) :
    ∀ st : ParseState, (parseLoop clock source items st).chFeed =
      st.chFeed ++ (qualifying clock source.LastTimeParsed items).map
        (fun q => buildFeed source (clock q.1) q.2) := by
  induction items with
  | nil => intro st; simp [parseLoop, qualifying]
  | cons p rest ih =>
    intro st
    have hstep := parseItem_chFeed clock source st p
    have hrec := ih (parseItem source st (clock p.1) p.2)
    simp only [parseLoop, List.foldl_cons] at hrec ⊢
    rw [hrec, hstep]
    simp only [qualifying, List.filter_cons, List.filter_nil]
    split <;> simp

theorem parseFeeds_chFeed (feeds : Feed) (clock : Nat → Time) (source : ModelSource) :
    (parseFeeds (.ok feeds) clock source).chFeed =
      (qualifying clock source.LastTimeParsed feeds.Items.enum).map
        (fun q => buildFeed source (clock q.1) q.2) := by
  unfold parseFeeds
  simp only
  split <;> simp [parseLoop_chFeed]

theorem parseItem_inv (source : ModelSource) (st : ParseState) (now : Time) (item : Item)
    (h : LoopInv source.LastTimeParsed st) :
    LoopInv source.LastTimeParsed (parseItem source st now item) := by
  obtain ⟨h1, h2, h3, h4, h5⟩ := h
  unfold parseItem
  by_cases ht : item.Title = ""
  · simp only [ht, if_true]; exact ⟨h1, h2, h3, h4, h5⟩
  · by_cases hlt : source.LastTimeParsed < feedTime now item
    · have hd := (buildFeed_fields source now item).2.2.2.2.1
      have hz : (0 : Int) ≤ st.maxTime := h4
      simp only [ht, if_false, After, hlt, decide_True, if_true, Before]
      by_cases hlt2 : st.maxTime < feedTime now item
      · simp only [hlt2, decide_True, if_true]
        refine ⟨by simp, ?_, Or.inr ⟨buildFeed source now item, by simp, hd⟩, ?_, ?_⟩
        · intro f hf
          rcases List.mem_append.1 hf with hf | hf
          · exact le_of_lt (lt_of_le_of_lt (h2 f hf) hlt2)
          · simp only [List.mem_singleton] at hf
            subst hf
            exact le_of_eq hd
        · exact le_trans h4 (le_of_lt hlt2)
        · intro f hf
          rcases List.mem_append.1 hf with hf | hf
          · exact h5 f hf
          · simp only [List.mem_singleton] at hf
            subst hf
            rw [hd]; exact hlt
      · simp only [hlt2, decide_False, Bool.false_eq_true, if_false]
        refine ⟨by simp, ?_, ?_, h4, ?_⟩
        · intro f hf
          rcases List.mem_append.1 hf with hf | hf
          · exact h2 f hf
          · simp only [List.mem_singleton] at hf
            subst hf
            rw [hd]; exact not_lt.1 hlt2
        · rcases h3 with h3 | ⟨f, hf, hfe⟩
          · exact Or.inl h3
          · exact Or.inr ⟨f, by simp [hf], hfe⟩
        · intro f hf
          rcases List.mem_append.1 hf with hf | hf
          · exact h5 f hf
          · simp only [List.mem_singleton] at hf
            subst hf
            rw [hd]; exact hlt
    · simp only [ht, if_false, After, hlt, decide_False]
      exact ⟨h1, h2, h3, h4, h5⟩

theorem parseLoop_inv (clock : Nat → Time) (source : ModelSource) (items : List (Nat × Item)) :
    ∀ st : ParseState, LoopInv source.LastTimeParsed st →
      LoopInv source.LastTimeParsed (parseLoop clock source items st) := by
  induction items with
  | nil => intro st h; simpa [parseLoop] using h
  | cons p rest ih =>
    intro st h
    have := ih _ (parseItem_inv source st (clock p.1) p.2 h)
    simpa [parseLoop] using this

theorem parseLoop_init_inv (clock : Nat → Time) (source : ModelSource) (items : List (Nat × Item)) :
    LoopInv source.LastTimeParsed (parseLoop clock source items
      { sourceIsUpdated := false, maxTime := zeroTime, chFeed := [] }) := by
  apply parseLoop_inv
  refine ⟨by simp, by simp, Or.inl rfl, le_refl _, by simp⟩

/-- C1: for a successfully parsed feed and a source with watermark `T`, what
`parseFeeds` sends on the feed channel is exactly, in feed order, one
`ModelFeed` for each item with a non-empty title and a timestamp strictly
later than `T`; every item sent has a non-empty title and a timestamp later
than `T`. -/
theorem parseFeeds_emits_exactly_qualifying (feeds : Feed) (clock : Nat → Time)
    (source : ModelSource) :
    (parseFeeds (.ok feeds) clock source).chFeed =
      ((feeds.Items.enum.filter
          (fun p => decide (p.2.Title ≠ "" ∧ source.LastTimeParsed < feedTime (clock p.1) p.2))).map
        (fun q => buildFeed source (clock q.1) q.2)) ∧
    (∀ f ∈ (parseFeeds (.ok feeds) clock source).chFeed,
      f.Title ≠ "" ∧ source.LastTimeParsed < f.Datetime) := by
  have h := parseFeeds_chFeed feeds clock source
  refine ⟨h, ?_⟩
  intro f hf
  rw [h] at hf
  obtain ⟨q, hq, rfl⟩ := List.mem_map.1 hf
  have hq2 := (List.mem_filter.1 hq).2
  simp only [decide_eq_true_eq] at hq2
  have hb := buildFeed_fields source (clock q.1) q.2
  rw [hb.2.2.1, hb.2.2.2.2.1]
  exact hq2

theorem scenario_only_B_emitted :
    ((parseFeeds (.ok scenarioFeed) (fun _ => 738890 * Day) scenarioSource).chFeed.map
        (fun f => (f.Title, f.Datetime)) = [("B", 738886 * Day)]) ∧
    (parseFeeds (.ok scenarioFeed) (fun _ => 738890 * Day) scenarioSource).source.LastTimeParsed
      = 738886 * Day := by
  decide

/-- C9: the timestamp of an item is its update time when it has one, also
when it has a publish time too; otherwise its publish time when it has one;
otherwise the reading of the wall clock taken while the item is processed.
It is the timestamp the emitted `ModelFeed` carries. -/
theorem feedTime_resolution (source : ModelSource) (now : Time) (item : Item) :
    (∀ u, item.UpdatedParsed = some u → feedTime now item = u) ∧
    (∀ p, item.UpdatedParsed = none → item.PublishedParsed = some p → feedTime now item = p) ∧
    (item.UpdatedParsed = none → item.PublishedParsed = none → feedTime now item = now) ∧
    (buildFeed source now item).Datetime = feedTime now item := by
  refine ⟨?_, ?_, ?_, (buildFeed_fields source now item).2.2.2.2.1⟩
  · intro u hu; simp [feedTime, hu]
  · intro p hu hp; simp [feedTime, hu, hp]
  · intro hu hp; simp [feedTime, hu, hp]

theorem feedTime_resolution_witness :
    feedTime 9 { Title := "t", Description := "", Link := "", UpdatedParsed := some 5,
                 PublishedParsed := some 3, Image := none, Categories := [] } = 5 :=
  (feedTime_resolution scenarioSource 9
    { Title := "t", Description := "", Link := "", UpdatedParsed := some 5,
      PublishedParsed := some 3, Image := none, Categories := [] }).1 5 rfl

/-- C8, as the code has it: every `ModelFeed` sent is built from a qualifying
item `i` of the feed as follows: source identifier of the source, title and
description of `i`, timestamp of `i`, category the first category of `i` or
empty, link the link of `i`, and image link the URL of the image of the ITEM
`i` when the item has one and empty otherwise (the image of the feed document
is not read). -/
theorem parseFeeds_builds_from_item (feeds : Feed) (clock : Nat → Time) (source : ModelSource) :
    (parseFeeds (.ok feeds) clock source).chFeed =
      (qualifying clock source.LastTimeParsed feeds.Items.enum).map
        (fun q =>
          { Id := 0
            SourceId := source.Id
            Title := q.2.Title
            Description := q.2.Description
            Datetime := feedTime (clock q.1) q.2
            Category := match q.2.Categories with
              | c :: _ => c
              | [] => ""
            SourceLink := q.2.Link
            ImageLink := match q.2.Image with
              | some image => image.URL
              | none => "" }) := by
  rw [parseFeeds_chFeed]
  apply List.map_congr_left
  intro q _
  unfold buildFeed
  cases q.2.Categories <;> cases q.2.Image <;> rfl

/-- C8 fails as stated: a feed whose document has an image and whose item has
none yields a `ModelFeed` with an empty image link, not the URL of the feed's
image. -/
theorem image_link_is_not_feed_level :
    ¬ (∀ f ∈ (parseFeeds (.ok imageFeed) (fun _ => 0) scenarioSource).chFeed,
        f.ImageLink = match imageFeed.Image with
          | some image => image.URL
          | none => "") := by
  decide

/-- C2 fails as stated for watermarks before the zero time: with watermark
-10 and a single item stamped -5 the item is emitted, and the watermark
becomes the zero time, which is not the timestamp of any emitted item. -/
theorem watermark_not_max_before_zeroTime :
    emittedTimes (parseFeeds (.ok earlyFeed) (fun _ => 0) earlySource) = [-5] ∧
    (parseFeeds (.ok earlyFeed) (fun _ => 0) earlySource).source.LastTimeParsed = zeroTime ∧
    ¬ ((parseFeeds (.ok earlyFeed) (fun _ => 0) earlySource).source.LastTimeParsed ∈
        emittedTimes (parseFeeds (.ok earlyFeed) (fun _ => 0) earlySource)) := by
  decide

/-- C2, amended: if nothing is emitted the source is unchanged and no update
is sent; if something is emitted, one update is sent, carrying the new
watermark, which is an upper bound of the emitted timestamps and is either one
of them or the zero time; and for a source whose watermark is not earlier than
the zero time the new watermark is one of the emitted timestamps, hence their
maximum. -/
theorem parseFeeds_watermark (feeds : Feed) (clock : Nat → Time) (source : ModelSource) :
    ((parseFeeds (.ok feeds) clock source).chFeed = [] →
      (parseFeeds (.ok feeds) clock source).source = source ∧
      (parseFeeds (.ok feeds) clock source).chSource = []) ∧
    ((parseFeeds (.ok feeds) clock source).chFeed ≠ [] →
      (parseFeeds (.ok feeds) clock source).chSource =
        [(parseFeeds (.ok feeds) clock source).source] ∧
      (parseFeeds (.ok feeds) clock source).source.Id = source.Id ∧
      (parseFeeds (.ok feeds) clock source).source.Url = source.Url ∧
      (∀ t ∈ emittedTimes (parseFeeds (.ok feeds) clock source),
        t ≤ (parseFeeds (.ok feeds) clock source).source.LastTimeParsed) ∧
      ((parseFeeds (.ok feeds) clock source).source.LastTimeParsed ∈
          emittedTimes (parseFeeds (.ok feeds) clock source) ∨
        (parseFeeds (.ok feeds) clock source).source.LastTimeParsed = zeroTime)) ∧
    (zeroTime ≤ source.LastTimeParsed →
      (parseFeeds (.ok feeds) clock source).chFeed ≠ [] →
      (parseFeeds (.ok feeds) clock source).source.LastTimeParsed ∈
        emittedTimes (parseFeeds (.ok feeds) clock source)) := by
  obtain ⟨h1, h2, h3, h4, h5⟩ := parseLoop_init_inv clock source feeds.Items.enum
  generalize hst : parseLoop clock source feeds.Items.enum
    { sourceIsUpdated := false, maxTime := zeroTime, chFeed := [] } = st at h1 h2 h3 h4 h5
  have hmem : ∀ x : Time, x ∈ st.chFeed.map (fun f => f.Datetime) ↔
      ∃ f ∈ st.chFeed, f.Datetime = x := fun x => List.mem_map
  by_cases hu : st.sourceIsUpdated = true
  · have hne : st.chFeed ≠ [] := h1.1 hu
    have hr : parseFeeds (.ok feeds) clock source =
        { err := none, source := { source with LastTimeParsed := st.maxTime },
          chFeed := st.chFeed,
          chSource := [{ source with LastTimeParsed := st.maxTime }] } := by
      simp [parseFeeds, hst, hu]
    rw [hr]
    simp only [emittedTimes]
    refine ⟨fun h => absurd h hne, fun _ => ⟨trivial, trivial, trivial, ?_, ?_⟩, fun hT _ => ?_⟩
    · intro t ht
      obtain ⟨f, hf, rfl⟩ := (hmem t).1 ht
      exact h2 f hf
    · rcases h3 with h3 | h3
      · exact Or.inr h3
      · exact Or.inl ((hmem _).2 h3)
    · rcases h3 with h3 | h3
      · exfalso
        obtain ⟨f, hf⟩ := List.exists_mem_of_ne_nil _ hne
        have ha := h5 f hf
        have hb := h2 f hf
        rw [h3] at hb
        exact absurd (lt_of_le_of_lt hT (lt_of_lt_of_le ha hb)) (lt_irrefl _)
      · exact (hmem _).2 h3
  · have he : st.chFeed = [] := by
      by_contra hne
      exact hu (h1.2 hne)
    have hr : parseFeeds (.ok feeds) clock source =
        { err := none, source := source, chFeed := st.chFeed, chSource := [] } := by
      simp [parseFeeds, hst, hu]
    rw [hr]
    simp only [he]
    exact ⟨fun _ => ⟨trivial, trivial⟩, fun h => absurd rfl h, fun _ h => absurd rfl h⟩

theorem parseFeeds_watermark_witness :
    (parseFeeds (.ok scenarioFeed) (fun _ => 738890 * Day) scenarioSource).source.LastTimeParsed ∈
      emittedTimes (parseFeeds (.ok scenarioFeed) (fun _ => 738890 * Day) scenarioSource) :=
  (parseFeeds_watermark scenarioFeed (fun _ => 738890 * Day) scenarioSource).2.2
    (by decide) (by decide)

/-! ## `publish` and `publishThread` -/

theorem publish_of_pending (o : ExecOutcome) (st : PubState)
    (h : st.sources ≠ [] ∨ st.feeds ≠ []) :
    publish true o st =
      { st := { sources := [], feeds := [] },
        err := (dbBatch.Exec o ((st.feeds.foldl dbBatch.InsertFeed
          (st.sources.foldl dbBatch.UpdateSource { tx := false, batch := [] })))).2.1,
        calls := Call.NewBatch :: (st.sources.map Call.UpdateSource ++
            st.feeds.map Call.InsertFeed) ++
          Call.Exec :: (dbBatch.Exec o ((st.feeds.foldl dbBatch.InsertFeed
            (st.sources.foldl dbBatch.UpdateSource { tx := false, batch := [] })))).2.2 ++
          (if o = ExecOutcome.succeeds then []
           else Call.Rollback ::
            (dbBatch.Rollback (dbBatch.Exec o ((st.feeds.foldl dbBatch.InsertFeed
              (st.sources.foldl dbBatch.UpdateSource { tx := false, batch := [] })))).1).2) } := by
  have hlen : ¬ (st.sources.length + st.feeds.length = 0) := by
    intro h0
    rcases h with h | h
    · exact h (List.length_eq_zero.1 (by omega))
    · exact h (List.length_eq_zero.1 (by omega))
  unfold publish
  simp only [hlen, if_false, NewBatch]
  cases o <;> simp [dbBatch.Exec]

theorem publish_of_empty (dbReady : Bool) (o : ExecOutcome) :
    publish dbReady o { sources := [], feeds := [] } =
      { st := { sources := [], feeds := [] }, err := none, calls := [] } := by
  simp [publish]

theorem publish_clears (o : ExecOutcome) (st : PubState) :
    (publish true o st).st = { sources := [], feeds := [] } := by
  by_cases h : st.sources ≠ [] ∨ st.feeds ≠ []
  · rw [publish_of_pending o st h]
  · have h1 : st.sources = [] := by
      by_contra hne; exact h (Or.inl hne)
    have h2 : st.feeds = [] := by
      by_contra hne; exact h (Or.inr hne)
    have hst : st = { sources := [], feeds := [] } := by
      cases st; simp_all
    rw [hst, publish_of_empty]

theorem publish_queued (o : ExecOutcome) (st : PubState) :
    queuedIn (publish true o st).calls =
      st.sources.map Call.UpdateSource ++ st.feeds.map Call.InsertFeed := by
  by_cases h : st.sources ≠ [] ∨ st.feeds ≠ []
  · rw [publish_of_pending o st h]
    have hs : ∀ l : List ModelSource, queuedIn (l.map Call.UpdateSource) = l.map Call.UpdateSource := by
      intro l; induction l with
      | nil => rfl
      | cons a l ih => simp_all [queuedIn]
    have hf : ∀ l : List ModelFeed, queuedIn (l.map Call.InsertFeed) = l.map Call.InsertFeed := by
      intro l; induction l with
      | nil => rfl
      | cons a l ih => simp_all [queuedIn]
    have happ : ∀ a b : List Call, queuedIn (a ++ b) = queuedIn a ++ queuedIn b := by
      intro a b; simp [queuedIn]
    have hcons : ∀ (c : Call) (a : List Call), queuedIn (c :: a) = queuedIn [c] ++ queuedIn a := by
      intro c a; exact happ [c] a
    simp only [happ, hs, hf, List.cons_append]
    rw [hcons Call.NewBatch]
    simp only [happ, hs, hf]
    rw [hcons Call.Exec]
    cases o <;> simp [queuedIn, dbBatch.Exec, dbBatch.Rollback]
    split <;> simp
  · have h1 : st.sources = [] := by
      by_contra hne; exact h (Or.inl hne)
    have h2 : st.feeds = [] := by
      by_contra hne; exact h (Or.inr hne)
    have hst : st = { sources := [], feeds := [] } := by
      cases st; simp_all
    rw [hst, publish_of_empty]
    rfl

theorem sinceLastTick_snoc (events : List PubEvent) (e : PubEvent) :
    sinceLastTick (events ++ [e]) = if e.isTick then [] else sinceLastTick events ++ [e] := by
  unfold sinceLastTick
  rw [List.reverse_append, List.reverse_singleton, List.singleton_append, List.takeWhile_cons]
  cases h : e.isTick <;> simp

theorem publishThread_pending (pre : List PubEvent) (hpre : ∀ e ∈ pre, e.isDone = false) :
    (publishThread true pre PubRun.init).exited = false ∧
    (publishThread true pre PubRun.init).st =
      { sources := arrivedSources (sinceLastTick pre),
        feeds := arrivedFeeds (sinceLastTick pre) } := by
  induction pre using List.reverseRecOn with
  | nil => exact ⟨rfl, rfl⟩
  | append_singleton xs e ih =>
    have hxs : ∀ x ∈ xs, x.isDone = false := fun x hx => hpre x (by simp [hx])
    have he : e.isDone = false := hpre e (by simp)
    obtain ⟨ih1, ih2⟩ := ih hxs
    have hrun : publishThread true (xs ++ [e]) PubRun.init =
        publishStep true (publishThread true xs PubRun.init) e := by
      simp [publishThread, List.foldl_append]
    rw [hrun, sinceLastTick_snoc]
    unfold publishStep
    simp only [ih1, Bool.false_eq_true, if_false]
    cases e with
    | done o => simp [PubEvent.isDone] at he
    | tick o =>
      simp only [PubEvent.isTick, if_true, publish_clears]
      exact ⟨trivial, rfl⟩
    | source s =>
      simp only [PubEvent.isTick, Bool.false_eq_true, if_false, ih1, ih2]
      simp [arrivedSources, arrivedFeeds, List.filterMap_append]
    | feed f =>
      simp only [PubEvent.isTick, Bool.false_eq_true, if_false, ih1, ih2]
      simp [arrivedSources, arrivedFeeds, List.filterMap_append]

/-- C3: a flush with something pending, whose batch was created, leaves both
pending slices empty whatever the database answers; it returns an error
exactly when `Exec` fails (at begin, at execution or at commit), and then
`Rollback` is called on the batch (reaching the transaction when one was
begun), while on success neither `Rollback` nor the rollback of the
transaction is called.  A flush with nothing pending makes no call, opens no
batch and leaves the state as it is. -/
theorem publish_flush (o : ExecOutcome) (st : PubState) :
    ((st.sources ≠ [] ∨ st.feeds ≠ []) →
      (publish true o st).st = { sources := [], feeds := [] } ∧
      ((publish true o st).err ≠ none ↔ o ≠ ExecOutcome.succeeds) ∧
      ((publish true o st).err ≠ none → Call.Rollback ∈ (publish true o st).calls) ∧
      ((publish true o st).err = none →
        Call.Rollback ∉ (publish true o st).calls ∧
        Call.txRollback ∉ (publish true o st).calls) ∧
      (o = ExecOutcome.sendFails ∨ o = ExecOutcome.commitFails →
        Call.txRollback ∈ (publish true o st).calls)) ∧
    (st.sources = [] → st.feeds = [] →
      ∀ dbReady, publish dbReady o st = { st := st, err := none, calls := [] }) := by
  constructor
  · intro h
    rw [publish_of_pending o st h]
    cases o <;> simp [dbBatch.Exec, dbBatch.Rollback]
  · intro h1 h2 dbReady
    simp [publish, h1, h2]

theorem publish_flush_witness :
    (publish true ExecOutcome.commitFails { sources := [], feeds := [sampleFeed] }).st =
      { sources := [], feeds := [] } ∧
    Call.Rollback ∈
      (publish true ExecOutcome.commitFails { sources := [], feeds := [sampleFeed] }).calls :=
  have h := (publish_flush ExecOutcome.commitFails
    { sources := [], feeds := [sampleFeed] }).1 (Or.inr (by decide))
  ⟨h.1, h.2.2.1 (by decide)⟩

/-- An example of the order inside a final flush: an item arrives, then a
source update, then cancellation is serviced; the flush queues the source
update and then the item, each pending slice in its own arrival order. -/
theorem final_flush_queues_updates_first :
    (publishThread true
        [PubEvent.feed sampleFeed, PubEvent.source scenarioSource,
          PubEvent.done ExecOutcome.succeeds] PubRun.init).flushes.map queuedIn =
      [[Call.UpdateSource scenarioSource, Call.InsertFeed sampleFeed]] := by
  decide

/-- C4: with the database handle set (`Connect` sets it before the aggregator
is started and nothing unsets it), for every sequence of events up to the
first servicing of cancellation, the publisher runs one more flush and
returns; that flush queues exactly what arrived since the last tick, nothing
left out: the pending source updates in their arrival order and the pending
items in their arrival order; both pending slices are empty when the
publisher returns, and later events are not serviced. -/
theorem publishThread_final_flush (pre rest : List PubEvent) (o : ExecOutcome)
    (hpre : ∀ e ∈ pre, e.isDone = false) :
    ∃ final : List Call,
      (publishThread true (pre ++ PubEvent.done o :: rest) PubRun.init).flushes =
        (publishThread true pre PubRun.init).flushes ++ [final] ∧
      queuedIn final =
        (arrivedSources (sinceLastTick pre)).map Call.UpdateSource ++
        (arrivedFeeds (sinceLastTick pre)).map Call.InsertFeed ∧
      (publishThread true (pre ++ PubEvent.done o :: rest) PubRun.init).st =
        { sources := [], feeds := [] } ∧
      (publishThread true (pre ++ PubEvent.done o :: rest) PubRun.init).exited = true := by
  obtain ⟨h1, h2⟩ := publishThread_pending pre hpre
  have hstop : ∀ (evs : List PubEvent) (r : PubRun), r.exited = true →
      publishThread true evs r = r := by
    intro evs
    induction evs with
    | nil => intro r _; rfl
    | cons e evs ih =>
      intro r hr
      have : publishStep true r e = r := by simp [publishStep, hr]
      simp only [publishThread, List.foldl_cons, this]
      exact ih r hr
  have hrun : publishThread true (pre ++ PubEvent.done o :: rest) PubRun.init =
      publishStep true (publishThread true pre PubRun.init) (PubEvent.done o) := by
    have hsplit : publishThread true (pre ++ PubEvent.done o :: rest) PubRun.init =
        publishThread true rest
          (publishStep true (publishThread true pre PubRun.init) (PubEvent.done o)) := by
      simp [publishThread, List.foldl_append]
    rw [hsplit]
    apply hstop
    simp [publishStep, h1]
  refine ⟨(publish true o (publishThread true pre PubRun.init).st).calls, ?_, ?_, ?_, ?_⟩
  · rw [hrun]; simp [publishStep, h1]
  · rw [publish_queued, h2]
  · rw [hrun]; simp [publishStep, h1, publish_clears]
  · rw [hrun]; simp [publishStep, h1]

theorem publishThread_final_flush_witness :
    ∃ final : List Call,
      (publishThread true
        ([PubEvent.tick ExecOutcome.succeeds, PubEvent.feed sampleFeed] ++
          PubEvent.done ExecOutcome.sendFails :: []) PubRun.init).flushes =
        (publishThread true [PubEvent.tick ExecOutcome.succeeds, PubEvent.feed sampleFeed]
          PubRun.init).flushes ++ [final] ∧
      queuedIn final =
        (arrivedSources (sinceLastTick
          [PubEvent.tick ExecOutcome.succeeds, PubEvent.feed sampleFeed])).map Call.UpdateSource ++
        (arrivedFeeds (sinceLastTick
          [PubEvent.tick ExecOutcome.succeeds, PubEvent.feed sampleFeed])).map Call.InsertFeed ∧
      (publishThread true
        ([PubEvent.tick ExecOutcome.succeeds, PubEvent.feed sampleFeed] ++
          PubEvent.done ExecOutcome.sendFails :: []) PubRun.init).st =
        { sources := [], feeds := [] } ∧
      (publishThread true
        ([PubEvent.tick ExecOutcome.succeeds, PubEvent.feed sampleFeed] ++
          PubEvent.done ExecOutcome.sendFails :: []) PubRun.init).exited = true :=
  publishThread_final_flush [PubEvent.tick ExecOutcome.succeeds, PubEvent.feed sampleFeed] []
    ExecOutcome.sendFails (by decide)

/-! ## The scheduler -/

theorem dispatchAll_trace (w : World) (hdone : ∀ k, w.done k = false)
    (sources : List ModelSource) :
    ∀ s : Sched, ∃ (s' : Sched) (new : List Entry),
      dispatchAll w sources s = (Ctl.completed, s') ∧
      s'.trace = s.trace ++ new ∧
      pageRequests new = [] ∧ pageResults new = [] ∧ passStarts new = [] ∧
      dispatched new = sources := by
  induction sources with
  | nil => intro s; exact ⟨s, [], rfl, by simp, rfl, rfl, rfl, rfl⟩
  | cons a rest ih =>
    intro s
    obtain ⟨s', new, h0, h1, h2, h3, h4, h5⟩ := ih (s.act w (Action.dispatch a) 0)
    refine ⟨s', ⟨s.step, s.now, Action.dispatch a⟩ :: new, ?_, ?_, ?_, ?_, ?_, ?_⟩
    · simp [dispatchAll, hdone, h0]
    · rw [h1]; simp [Sched.act]
    · simpa [pageRequests] using h2
    · simpa [pageResults] using h3
    · simpa [passStarts] using h4
    · simpa [dispatched] using h5

theorem pages_run (w : World) (hdone : ∀ k, w.done k = false) (n c : Nat) :
    ∀ (m i fuel : Nat) (s : Sched), m < fuel → c ≤ (i + m) * n →
      (m ≠ 0 → (i + m - 1) * n < c) →
      ∃ (s' : Sched) (new : List Entry),
        pages w (n : Int) (c : Int) fuel ((i * n : Nat) : Int) s = (Ctl.completed, s') ∧
        s'.trace = s.trace ++ new ∧
        pageRequests new =
          (List.range' i m).map (fun j => ((n : Int), ((j * n : Nat) : Int))) ∧
        dispatched new = (pageResults new).flatten ∧
        passStarts new = [] ∧
        (∀ table : List ModelSource,
          (∀ k l o, w.GetSources k l o = .ok (pageQuery table l o)) →
          pageResults new =
            (List.range' i m).map (fun j => pageQuery table (n : Int) ((j * n : Nat) : Int))) := by
  intro m
  induction m with
  | zero =>
    intro i fuel s hf hc _
    obtain ⟨f, rfl⟩ : ∃ f, fuel = f + 1 := ⟨fuel - 1, by omega⟩
    have hnot : ¬ (((i * n : Nat) : Int) < (c : Int)) := by
      simp only [Nat.add_zero] at hc
      exact_mod_cast Nat.not_lt.2 hc
    refine ⟨s, [], ?_, by simp, rfl, rfl, rfl, fun _ _ => rfl⟩
    simp only [pages, hnot, if_false]
  | succ m ih =>
    intro i fuel s hf hc hlast
    obtain ⟨f, rfl⟩ : ∃ f, fuel = f + 1 := ⟨fuel - 1, by omega⟩
    have hlt0 : (i + m) * n < c := by
      have := hlast (Nat.succ_ne_zero m)
      simpa [Nat.add_succ_sub_one] using this
    have hin : i * n < c := lt_of_le_of_lt (Nat.mul_le_mul_right n (Nat.le_add_right i m)) hlt0
    have hlt : (((i * n : Nat) : Int) < (c : Int)) := by exact_mod_cast hin
    have hoff : ((i * n : Nat) : Int) + (n : Int) = (((i + 1) * n : Nat) : Int) := by
      push_cast; ring
    have hc' : c ≤ (i + 1 + m) * n := by
      have : i + 1 + m = i + (m + 1) := by omega
      rw [this]; exact hc
    have hlast' : m ≠ 0 → (i + 1 + m - 1) * n < c := by
      intro _
      have : i + 1 + m - 1 = i + m := by omega
      rw [this]; exact hlt0
    simp only [pages, hlt, if_true, needExit, hdone, Bool.false_eq_true, if_false]
    rw [hoff]
    generalize hs1 : s.act w (Action.needExit false) 0 = s1
    have t1 : s1.trace = s.trace ++ [⟨s.step, s.now, Action.needExit false⟩] := by
      rw [← hs1]; rfl
    generalize he1 : (⟨s.step, s.now, Action.needExit false⟩ : Entry) = e1 at t1
    have a1 : e1.action = Action.needExit false := by rw [← he1]
    cases hr : w.GetSources s1.step (n : Int) ((i * n : Nat) : Int) with
    | error err =>
      simp only []
      generalize hs2 : s1.act w (Action.GetSources (n : Int) ((i * n : Nat) : Int) (.error err)) 0 = s2
      have t2 : s2.trace = s1.trace ++ [⟨s1.step, s1.now, Action.GetSources (n : Int) ((i * n : Nat) : Int) (.error err)⟩] := by
        rw [← hs2]; rfl
      generalize he2 : (⟨s1.step, s1.now, Action.GetSources (n : Int) ((i * n : Nat) : Int) (.error err)⟩ : Entry) = e2 at t2
      have a2 : e2.action = Action.GetSources (n : Int) ((i * n : Nat) : Int) (.error err) := by
        rw [← he2]
      generalize hs3 : s2.act w Action.logError 0 = s3
      have t3 : s3.trace = s2.trace ++ [⟨s2.step, s2.now, Action.logError⟩] := by
        rw [← hs3]; rfl
      generalize he3 : (⟨s2.step, s2.now, Action.logError⟩ : Entry)
        = e3 at t3
      have a3 : e3.action = Action.logError := by rw [← he3]
      generalize hs4 : Sleep w sleepTime s3 = s4
      have t4 : s4.trace = s3.trace ++ [⟨s3.step, s3.now, Action.Sleep sleepTime⟩] := by
        rw [← hs4]; rfl
      generalize he4 : (⟨s3.step, s3.now, Action.Sleep sleepTime⟩ : Entry)
        = e4 at t4
      have a4 : e4.action = Action.Sleep sleepTime := by rw [← he4]
      obtain ⟨s', new, h1, h2, h3, h4, h5, h6⟩ := ih (i + 1) f s4 (by omega) hc' hlast'
      refine ⟨s', e1 :: e2 :: e3 :: e4 :: new, h1, ?_, ?_, ?_, ?_, ?_⟩
      · rw [h2, t4, t3, t2, t1]; simp
      · simp [pageRequests, List.range'_succ, a1, a2, a3, a4] at h3 ⊢
        exact h3
      · simp [dispatched, pageResults, a1, a2, a3, a4] at h4 ⊢
        exact h4
      · simp [passStarts, a1, a2, a3, a4] at h5 ⊢
        exact h5
      · intro table htable
        rw [htable] at hr
        cases hr
    | ok sources =>
      simp only []
      generalize hs2 : s1.act w (Action.GetSources (n : Int) ((i * n : Nat) : Int) (.ok sources)) 0 = s2
      have t2 : s2.trace = s1.trace ++ [⟨s1.step, s1.now, Action.GetSources (n : Int) ((i * n : Nat) : Int) (.ok sources)⟩] := by
        rw [← hs2]; rfl
      generalize he2 : (⟨s1.step, s1.now, Action.GetSources (n : Int) ((i * n : Nat) : Int) (.ok sources)⟩ : Entry) = e2 at t2
      have a2 : e2.action = Action.GetSources (n : Int) ((i * n : Nat) : Int) (.ok sources) := by
        rw [← he2]
      obtain ⟨s3, new0, hd, d1, d2, d3, d4, d5⟩ := dispatchAll_trace w hdone sources s2
      rw [hd]
      simp only []
      obtain ⟨s', new, h1, h2, h3, h4, h5, h6⟩ := ih (i + 1) f s3 (by omega) hc' hlast'
      refine ⟨s', e1 :: e2 :: (new0 ++ new), h1, ?_, ?_, ?_, ?_, ?_⟩
      · rw [h2, d1, t2, t1]; simp
      · have hq : pageRequests (e1 :: e2 :: (new0 ++ new)) =
            ((n : Int), ((i * n : Nat) : Int)) :: (pageRequests new0 ++ pageRequests new) := by
          simp [pageRequests, a1, a2, List.filterMap_append]
        rw [hq, d2, h3]; simp [List.range'_succ]
      · have hq : pageResults (e1 :: e2 :: (new0 ++ new)) =
            sources :: (pageResults new0 ++ pageResults new) := by
          simp [pageResults, a1, a2, List.filterMap_append]
        have hd : dispatched (e1 :: e2 :: (new0 ++ new)) = dispatched new0 ++ dispatched new := by
          simp [dispatched, a1, a2, List.filterMap_append]
        rw [hq, hd, d3, d5, h4]; simp
      · have hq : passStarts (e1 :: e2 :: (new0 ++ new)) = passStarts new0 ++ passStarts new := by
          simp [passStarts, a1, a2, List.filterMap_append]
        rw [hq, d4, h5]; rfl
      · intro table htable
        have h6' := h6 table htable
        rw [htable] at hr
        cases hr
        have hq : pageResults (e1 :: e2 :: (new0 ++ new)) =
            pageQuery table (n : Int) ((i * n : Nat) : Int) ::
              (pageResults new0 ++ pageResults new) := by
          simp [pageResults, a1, a2, List.filterMap_append]
        rw [hq, d3, h6']; simp [List.range'_succ]

theorem ceil_pages (n c : Nat) (hn : 1 ≤ n) :
    c ≤ (0 + (c + n - 1) / n) * n ∧
    ((c + n - 1) / n ≠ 0 → (0 + (c + n - 1) / n - 1) * n < c) ∧
    (c + n - 1) / n ≤ c := by
  have hdm := Nat.div_add_mod (c + n - 1) n
  have hml := Nat.mod_lt (c + n - 1) (show 0 < n by omega)
  generalize hq : (c + n - 1) / n = q at hdm ⊢
  generalize (c + n - 1) % n = r at hdm hml
  have hcomm : n * q = q * n := Nat.mul_comm n q
  simp only [Nat.zero_add]
  refine ⟨by omega, ?_, ?_⟩
  · intro hq0
    obtain ⟨q', rfl⟩ : ∃ q', q = q' + 1 := ⟨q - 1, by omega⟩
    have hexp : (q' + 1) * n = q' * n + n := Nat.succ_mul q' n
    simp only [Nat.add_sub_cancel]
    omega
  · have hle : q ≤ q * n := Nat.le_mul_of_pos_right q (by omega)
    by_cases hc0 : c = 0
    · subst hc0
      have : q = 0 := by
        rw [← hq]; exact Nat.div_eq_of_lt (by omega)
      omega
    · by_contra hgt
      have hgt' : c + 1 ≤ q := by omega
      have h1 : (c + 1) * n ≤ q * n := Nat.mul_le_mul_right n hgt'
      have h2 : (c + 1) * n = c * n + n := Nat.succ_mul c n
      have h3 : c ≤ c * n := Nat.le_mul_of_pos_right c (by omega)
      omega

theorem flatten_pages (L : List ModelSource) (n : Nat) :
    ∀ (m i : Nat), L.length ≤ (i + m) * n →
      ((List.range' i m).map (fun j => (L.drop (j * n)).take n)).flatten = L.drop (i * n) := by
  intro m
  induction m with
  | zero =>
    intro i h
    simp only [Nat.add_zero] at h
    simp [List.drop_eq_nil_of_le h]
  | succ m ih =>
    intro i h
    have h' : L.length ≤ (i + 1 + m) * n := by
      have : i + 1 + m = i + (m + 1) := by omega
      rw [this]; exact h
    have hd : L.drop ((i + 1) * n) = (L.drop (i * n)).drop n := by
      rw [List.drop_drop, Nat.succ_mul]
    simp only [List.range'_succ, List.map_cons, List.flatten_cons, ih (i + 1) h', hd]
    exact List.take_append_drop n _

theorem range'_zero_eq_range (m : Nat) : List.range' 0 m = List.range m := by
  rw [List.range_eq_range']

theorem New_threads (threads sourceTimeout : Int) : 1 ≤ (New threads sourceTimeout).threads := by
  unfold New
  simp only
  split <;> omega

theorem cycle_run (w : World) (agg : aggService) (n c : Nat) (fuel : Nat) (startTime : Time)
    (s : Sched) (hn : agg.threads = (n : Int)) (h1n : 1 ≤ n) (hfuel : c < fuel)
    (hdone : ∀ k, w.done k = false)
    (hcount : w.GetSourceCount (s.step + 1) = .ok (c : Int)) :
    ∃ (st' : Time) (s' : Sched) (new : List Entry),
      cycle w agg fuel startTime s = (Ctl.completed, st', s') ∧
      s'.trace = s.trace ++ new ∧
      pageRequests new =
        (List.range ((c + n - 1) / n)).map (fun j => ((n : Int), ((j * n : Nat) : Int))) ∧
      dispatched new = (pageResults new).flatten ∧
      (∀ table : List ModelSource,
        (∀ k l o, w.GetSources k l o = .ok (pageQuery table l o)) →
        pageResults new =
          (List.range ((c + n - 1) / n)).map
            (fun j => pageQuery table (n : Int) ((j * n : Nat) : Int))) := by
  obtain ⟨hc1, hc2, hc3⟩ := ceil_pages n c h1n
  generalize hs1 : s.act w (Action.needExit false) 0 = s1
  have t1 : s1.trace = s.trace ++ [⟨s.step, s.now, Action.needExit false⟩] := by
    rw [← hs1]; rfl
  have k1 : s1.step = s.step + 1 := by rw [← hs1]; rfl
  generalize hs2 : s1.act w (Action.GetSourceCount (.ok (c : Int))) 0 = s2
  have t2 : s2.trace = s1.trace ++ [⟨s1.step, s1.now, Action.GetSourceCount (.ok (c : Int))⟩] := by
    rw [← hs2]; rfl
  obtain ⟨s3, newp, p1, p2, p3, p4, p5, p6⟩ :=
    pages_run w hdone n c ((c + n - 1) / n) 0 fuel s2 (by omega) hc1 hc2
  simp only [Nat.zero_mul, Nat.cast_zero] at p1
  have hcyc : cycle w agg fuel startTime s =
      (Ctl.completed,
        (if Before s3.now (startTime + sleepTime) then Sleep w sleepTime s3 else s3).now,
        (if Before s3.now (startTime + sleepTime) then Sleep w sleepTime s3 else s3)) := by
    unfold cycle
    simp only [needExit, hdone, Bool.false_eq_true, if_false, hs1, k1, hcount, hs2, hn, p1]
  rw [range'_zero_eq_range] at p3 p6
  by_cases hb : Before s3.now (startTime + sleepTime) = true
  · simp only [hb, if_true] at hcyc
    refine ⟨_, _, [⟨s.step, s.now, Action.needExit false⟩,
      ⟨s1.step, s1.now, Action.GetSourceCount (.ok (c : Int))⟩] ++ newp ++
      [⟨s3.step, s3.now, Action.Sleep sleepTime⟩], hcyc, ?_, ?_, ?_, ?_⟩
    · simp [Sleep, Sched.act, p2, t2, t1]
    · simp [pageRequests, List.filterMap_append] at p3 ⊢
      exact p3
    · simp [dispatched, pageResults, List.filterMap_append] at p4 ⊢
      exact p4
    · intro table htable
      have := p6 table htable
      simp [pageResults, List.filterMap_append] at this ⊢
      exact this
  · simp only [hb, if_false] at hcyc
    refine ⟨_, _, [⟨s.step, s.now, Action.needExit false⟩,
      ⟨s1.step, s1.now, Action.GetSourceCount (.ok (c : Int))⟩] ++ newp, hcyc, ?_, ?_, ?_, ?_⟩
    · simp [p2, t2, t1]
    · simp [pageRequests, List.filterMap_append] at p3 ⊢
      exact p3
    · simp [dispatched, pageResults, List.filterMap_append] at p4 ⊢
      exact p4
    · intro table htable
      have := p6 table htable
      simp [pageResults, List.filterMap_append] at this ⊢
      exact this

/-- C10: for a service built by `New` (page width `n`, at least 1), a table of
`c` sources that stays the same, a database that answers every query, and no
cancellation, one turn of the scheduler runs to its end; it requests exactly
`ceil(c/n)` pages, with limit `n`, at the offsets 0, n, 2n, ..., all below `c`;
and the sources it hands to the dispatch channel are the sources of the table
in ascending order of identifier, each exactly once. -/
theorem cycle_walks_every_source_once (w : World) (table : List ModelSource)
    (threads sourceTimeout : Int) (n fuel : Nat) (startTime : Time) (s : Sched)
    (hn : (New threads sourceTimeout).threads = (n : Int))
    (hfuel : table.length < fuel)
    (hdone : ∀ k, w.done k = false)
    (hcount : ∀ k, w.GetSourceCount k = .ok (countQuery table))
    (hpages : ∀ k l o, w.GetSources k l o = .ok (pageQuery table l o)) :
    1 ≤ n ∧
    ∃ (st' : Time) (s' : Sched) (new : List Entry),
      cycle w (New threads sourceTimeout) fuel startTime s = (Ctl.completed, st', s') ∧
      s'.trace = s.trace ++ new ∧
      pageRequests new =
        (List.range ((table.length + n - 1) / n)).map
          (fun j => ((n : Int), ((j * n : Nat) : Int))) ∧
      (pageRequests new).length = (table.length + n - 1) / n ∧
      (∀ j, j < (table.length + n - 1) / n → j * n < table.length) ∧
      dispatched new = table.insertionSort (fun a b => a.Id ≤ b.Id) ∧
      (dispatched new).Perm table ∧
      (dispatched new).Sorted (fun a b => a.Id ≤ b.Id) := by
  have h1n : 1 ≤ n := by
    have := New_threads threads sourceTimeout
    rw [hn] at this
    exact_mod_cast this
  refine ⟨h1n, ?_⟩
  obtain ⟨hc1, hc2, hc3⟩ := ceil_pages n table.length h1n
  obtain ⟨st', s', new, r1, r2, r3, r4, r5⟩ :=
    cycle_run w (New threads sourceTimeout) n table.length fuel startTime s hn h1n hfuel hdone
      (hcount _)
  have hdisp : dispatched new = table.insertionSort (fun a b => a.Id ≤ b.Id) := by
    rw [r4, r5 table hpages, ← range'_zero_eq_range]
    have hq : (fun j : Nat => pageQuery table (n : Int) ((j * n : Nat) : Int)) =
        (fun j : Nat => ((table.insertionSort (fun a b => a.Id ≤ b.Id)).drop (j * n)).take n) := by
      funext j
      simp only [pageQuery, Int.toNat_natCast]
    rw [hq, flatten_pages _ n _ 0 (by simpa using hc1)]
    simp
  refine ⟨st', s', new, r1, r2, r3, by simp [r3], ?_, hdisp, ?_, ?_⟩
  · intro j hj
    have hne : (table.length + n - 1) / n ≠ 0 := by omega
    have hlast := hc2 hne
    simp only [Nat.zero_add] at hlast
    exact lt_of_le_of_lt (Nat.mul_le_mul_right n (by omega)) hlast
  · rw [hdisp]; exact List.perm_insertionSort _ _
  · rw [hdisp]
    exact @List.sorted_insertionSort ModelSource (fun a b => a.Id ≤ b.Id) _
      ⟨fun a b => le_total a.Id b.Id⟩ ⟨fun a b c hab hbc => le_trans hab hbc⟩ table

theorem cycle_walks_every_source_once_witness :
    (pageRequests (cycle (stableWorld fiveSources) (New 2 0) 6 0
        { step := 0, now := 0, trace := [] }).2.2.trace = [(2, 0), (2, 2), (2, 4)] ∧
      (dispatched (cycle (stableWorld fiveSources) (New 2 0) 6 0
        { step := 0, now := 0, trace := [] }).2.2.trace).map (fun s => s.Id) = [1, 2, 3, 4, 5]) ∧
    (pageResults (cycle (stableWorld fiveSources) (New 2 0) 6 0
      { step := 0, now := 0, trace := [] }).2.2.trace).map List.length = [2, 2, 1] := by
  refine ⟨?_, by decide⟩
  obtain ⟨_, st', s', new, r1, r2, r3, _, _, r6, _, _⟩ :=
    cycle_walks_every_source_once (stableWorld fiveSources) fiveSources 2 0 2 6 0
      { step := 0, now := 0, trace := [] } (by decide) (by decide) (fun _ => rfl) (fun _ => rfl)
      (fun _ _ _ => rfl)
  rw [r1]
  simp only [List.nil_append] at r2
  rw [r2, r3, r6]
  decide

theorem polled_append (w : World) (trace new : List Entry) (h : PolledBeforeRequests w trace)
    (hnew : ∀ e ∈ new, e.action.isRequest = false) :
    PolledBeforeRequests w (trace ++ new) := by
  intro e he hreq
  rcases List.mem_append.1 he with he | he
  · obtain ⟨p, hp, hp'⟩ := h e he hreq
    exact ⟨p, List.mem_append.2 (Or.inl hp), hp'⟩
  · rw [hnew e he] at hreq
    cases hreq

theorem polled_poll_request (w : World) (s : Sched) (a : Action)
    (h : PolledBeforeRequests w s.trace) (hd : w.done s.step = false) :
    PolledBeforeRequests w (((needExit w s).2).act w a 0).trace := by
  have hpoll : PolledBeforeRequests w (needExit w s).2.trace :=
    polled_append w s.trace _ h (by
      intro e he
      simp only [List.mem_singleton] at he
      subst he
      rfl)
  intro e he hreq
  rcases List.mem_append.1 he with he | he
  · obtain ⟨p, hp, hp'⟩ := hpoll e he hreq
    exact ⟨p, List.mem_append.2 (Or.inl hp), hp'⟩
  · simp only [List.mem_singleton] at he
    subst he
    refine ⟨⟨s.step, s.now, Action.needExit false⟩, ?_, rfl, rfl, hd⟩
    simp [Sched.act, needExit, hd]

theorem clean_append (trace new : List Entry) (h : Clean trace)
    (hnew : ∀ e ∈ new, e.action ≠ Action.needExit true ∧
      ∀ source, e.action ≠ Action.sendBlocked source) :
    Clean (trace ++ new) := by
  intro e he
  rcases List.mem_append.1 he with he | he
  · exact h e he
  · exact hnew e he

theorem sends_append (trace new : List Entry) (h : SendsFollow trace)
    (hnew : ∀ e ∈ new, e.action.isSend = false) :
    SendsFollow (trace ++ new) := by
  intro d hd hsend
  rcases List.mem_append.1 hd with hd | hd
  · obtain ⟨p, hp, hp'⟩ := h d hd hsend
    exact ⟨p, List.mem_append.2 (Or.inl hp), hp'⟩
  · rw [hnew d hd] at hsend
    cases hsend

theorem sends_append_send (trace : List Entry) (d p : Entry) (h : SendsFollow trace)
    (hp : p ∈ trace) (hstep : p.step + 1 = d.step)
    (hpa : p.action.isDispatch = true ∨ p.action.isPage = true) :
    SendsFollow (trace ++ [d]) := by
  intro e he hsend
  rcases List.mem_append.1 he with he | he
  · obtain ⟨q, hq, hq'⟩ := h e he hsend
    exact ⟨q, List.mem_append.2 (Or.inl hq), hq'⟩
  · simp only [List.mem_singleton] at he
    subst he
    exact ⟨p, List.mem_append.2 (Or.inl hp), hstep, hpa⟩

theorem dispatched_append_other (trace : List Entry) (e : Entry)
    (h : e.action.isDispatch = false) : dispatched (trace ++ [e]) = dispatched trace := by
  cases ha : e.action <;> simp_all [dispatched, List.filterMap_append, Action.isDispatch]

theorem dispatched_append_dispatch (trace : List Entry) (e : Entry) (source : ModelSource)
    (h : e.action = Action.dispatch source) :
    dispatched (trace ++ [e]) = dispatched trace ++ [source] := by
  simp [dispatched, List.filterMap_append, h]

theorem pageResults_append_other (trace : List Entry) (e : Entry)
    (h : ∀ l o r, e.action ≠ Action.GetSources l o r) :
    pageResults (trace ++ [e]) = pageResults trace := by
  cases ha : e.action <;> simp_all [pageResults, List.filterMap_append]

theorem pageResults_append_error (trace : List Entry) (e : Entry) (l o : Int) (err : Err)
    (h : e.action = Action.GetSources l o (.error err)) :
    pageResults (trace ++ [e]) = pageResults trace ++ [[]] := by
  simp [pageResults, List.filterMap_append, h]

theorem pageResults_append_ok (trace : List Entry) (e : Entry) (l o : Int)
    (sources : List ModelSource) (h : e.action = Action.GetSources l o (.ok sources)) :
    pageResults (trace ++ [e]) = pageResults trace ++ [sources] := by
  simp [pageResults, List.filterMap_append, h]

theorem single_action (k : Nat) (t : Time) (a : Action) :
    ∀ e ∈ [(⟨k, t, a⟩ : Entry)], e.action = a := by
  intro e he
  simp only [List.mem_singleton] at he
  subst he
  rfl

theorem running_act (w : World) (s : Sched) (a : Action) (extra : Int) (h : Running w s.trace)
    (ha : a.isRequest = false) (ha' : a ≠ Action.needExit true) (hs : a.isSend = false) :
    Running w (s.act w a extra).trace := by
  obtain ⟨h1, h2, h3, h4⟩ := h
  have hmem := single_action s.step s.now a
  refine ⟨polled_append w _ _ h1 (fun e he => by rw [hmem e he]; exact ha),
    clean_append _ _ h2 (fun e he => by
      rw [hmem e he]
      refine ⟨ha', fun source hsrc => ?_⟩
      rw [hsrc] at hs
      cases hs),
    sends_append _ _ h3 (fun e he => by rw [hmem e he]; exact hs), ?_⟩
  show dispatched (s.trace ++ [_]) = (pageResults (s.trace ++ [_])).flatten
  rw [dispatched_append_other, pageResults_append_other, h4]
  · intro l o r hr
    have : a = Action.GetSources l o r := hr
    rw [this] at ha
    cases ha
  · show a.isDispatch = false
    cases a <;> simp_all [Action.isDispatch, Action.isSend]

theorem running_poll (w : World) (s : Sched) (h : Running w s.trace)
    (hd : w.done s.step = false) : Running w (needExit w s).2.trace := by
  have := running_act w s (Action.needExit (w.done s.step)) 0 h rfl (by rw [hd]; simp) rfl
  exact this

theorem running_poll_count (w : World) (s : Sched) (r : Except Err Int) (h : Running w s.trace)
    (hd : w.done s.step = false) :
    Running w (((needExit w s).2).act w (Action.GetSourceCount r) 0).trace := by
  obtain ⟨_, p2, p3, p4⟩ := running_poll w s h hd
  obtain ⟨h1, _, _, _⟩ := h
  have hmem := single_action (needExit w s).2.step (needExit w s).2.now
    (Action.GetSourceCount r)
  refine ⟨polled_poll_request w s _ h1 hd,
    clean_append _ _ p2 (fun e he => by rw [hmem e he]; simp),
    sends_append _ _ p3 (fun e he => by rw [hmem e he]; rfl), ?_⟩
  show dispatched ((needExit w s).2.trace ++ [_]) = (pageResults ((needExit w s).2.trace ++ [_])).flatten
  rw [dispatched_append_other _ ⟨_, _, Action.GetSourceCount r⟩ rfl,
    pageResults_append_other _ ⟨_, _, Action.GetSourceCount r⟩ (by intro l o r' hr; cases hr), p4]

theorem running_poll_page_error (w : World) (s : Sched) (l o : Int) (err : Err)
    (h : Running w s.trace) (hd : w.done s.step = false) :
    Running w (((needExit w s).2).act w (Action.GetSources l o (.error err)) 0).trace := by
  obtain ⟨_, p2, p3, p4⟩ := running_poll w s h hd
  obtain ⟨h1, _, _, _⟩ := h
  have hmem := single_action (needExit w s).2.step (needExit w s).2.now
    (Action.GetSources l o (.error err))
  refine ⟨polled_poll_request w s _ h1 hd,
    clean_append _ _ p2 (fun e he => by rw [hmem e he]; simp),
    sends_append _ _ p3 (fun e he => by rw [hmem e he]; rfl), ?_⟩
  show dispatched ((needExit w s).2.trace ++ [_]) = (pageResults ((needExit w s).2.trace ++ [_])).flatten
  rw [dispatched_append_other _ ⟨_, _, Action.GetSources l o (.error err)⟩ rfl,
    pageResults_append_error _ ⟨_, _, Action.GetSources l o (.error err)⟩ l o err rfl, p4]
  simp

theorem walking_poll_page_ok (w : World) (s : Sched) (l o : Int) (sources : List ModelSource)
    (h : Running w s.trace) (hd : w.done s.step = false) :
    Walking w (((needExit w s).2).act w (Action.GetSources l o (.ok sources)) 0) sources := by
  obtain ⟨_, p2, p3, p4⟩ := running_poll w s h hd
  obtain ⟨h1, _, _, _⟩ := h
  have hmem := single_action (needExit w s).2.step (needExit w s).2.now
    (Action.GetSources l o (.ok sources))
  refine ⟨polled_poll_request w s _ h1 hd,
    clean_append _ _ p2 (fun e he => by rw [hmem e he]; simp),
    sends_append _ _ p3 (fun e he => by rw [hmem e he]; rfl), ?_, ?_⟩
  · show dispatched ((needExit w s).2.trace ++ [_]) ++ sources =
      (pageResults ((needExit w s).2.trace ++ [_])).flatten
    rw [dispatched_append_other _ ⟨_, _, Action.GetSources l o (.ok sources)⟩ rfl,
      pageResults_append_ok _ ⟨_, _, Action.GetSources l o (.ok sources)⟩ l o sources rfl, p4]
    simp
  · exact ⟨⟨(needExit w s).2.step, (needExit w s).2.now, Action.GetSources l o (.ok sources)⟩,
      by simp [Sched.act], rfl, Or.inr rfl⟩

theorem stopped_poll (w : World) (s : Sched) (h : Running w s.trace)
    (hd : w.done s.step = true) : Stopped w (needExit w s).2.trace :=
  ⟨s.trace, ⟨s.step, s.now, Action.needExit true⟩, by simp [needExit, Sched.act, hd], h, rfl⟩

theorem dispatchAll_outcome (w : World) :
    ∀ (rest : List ModelSource) (s : Sched), Walking w s rest →
      ((dispatchAll w rest s).1 = Ctl.completed ∧ Running w (dispatchAll w rest s).2.trace) ∨
      ((dispatchAll w rest s).1 = Ctl.blocked ∧ Blocked w (dispatchAll w rest s).2.trace) := by
  intro rest
  induction rest with
  | nil =>
    intro s h
    obtain ⟨h1, h2, h3, h4, _⟩ := h
    left
    exact ⟨rfl, h1, h2, h3, by simpa using h4⟩
  | cons source rest ih =>
    intro s h
    obtain ⟨h1, h2, h3, h4, p, hp, hpstep, hpa⟩ := h
    by_cases hb : w.done s.step = true ∧ w.taken s.step = false
    · right
      have hrun : dispatchAll w (source :: rest) s =
          (Ctl.blocked, s.act w (Action.sendBlocked source) 0) := by
        simp [dispatchAll, hb]
      rw [hrun]
      refine ⟨rfl, s.trace, ⟨s.step, s.now, Action.sendBlocked source⟩, source, rest, rfl, rfl,
        hb.1, hb.2, h1, h2, ?_, h4⟩
      exact sends_append_send s.trace _ p h3 hp hpstep hpa
    · have hrun : dispatchAll w (source :: rest) s =
          dispatchAll w rest (s.act w (Action.dispatch source) 0) := by
        simp only [dispatchAll, hb, if_false]
      rw [hrun]
      apply ih
      refine ⟨polled_append w _ _ h1 (fun e he => ?_), clean_append _ _ h2 (fun e he => ?_),
        sends_append_send s.trace _ p h3 hp hpstep hpa, ?_, ?_⟩
      · simp only [List.mem_singleton] at he
        subst he
        rfl
      · simp only [List.mem_singleton] at he
        subst he
        simp
      · show dispatched (s.trace ++ [_]) ++ rest = (pageResults (s.trace ++ [_])).flatten
        rw [dispatched_append_dispatch _ ⟨_, _, Action.dispatch source⟩ source rfl,
          pageResults_append_other _ ⟨_, _, Action.dispatch source⟩
            (by intro l o r hr; cases hr), ← h4]
        simp
      · exact ⟨⟨s.step, s.now, Action.dispatch source⟩, by simp [Sched.act], rfl, Or.inl rfl⟩

theorem outcome_running (w : World) (c : Ctl) (trace : List Entry) (h1 : c ≠ Ctl.returned)
    (h2 : c ≠ Ctl.blocked) (h : Running w trace) : Outcome w c trace :=
  ⟨fun hc => absurd hc h1, fun hc => absurd hc h2, fun _ _ => h⟩

theorem outcome_stopped (w : World) (trace : List Entry) (h : Stopped w trace) :
    Outcome w Ctl.returned trace :=
  ⟨fun _ => h, fun hc => (by cases hc), fun hc => absurd rfl hc⟩

theorem outcome_blocked (w : World) (trace : List Entry) (h : Blocked w trace) :
    Outcome w Ctl.blocked trace :=
  ⟨fun hc => (by cases hc), fun _ => h, fun _ hc => absurd rfl hc⟩

theorem pages_outcome (w : World) (limit count : Int) :
    ∀ (fuel : Nat) (offset : Int) (s : Sched), Running w s.trace →
      Outcome w (pages w limit count fuel offset s).1 (pages w limit count fuel offset s).2.trace := by
  intro fuel
  induction fuel with
  | zero =>
    intro offset s h
    exact outcome_running w _ _ (by simp [pages]) (by simp [pages]) (by simpa [pages] using h)
  | succ f ih =>
    intro offset s h
    by_cases hlt : offset < count
    · cases hd : w.done s.step with
      | true =>
        have hp : pages w limit count (f + 1) offset s = (Ctl.returned, (needExit w s).2) := by
          simp [pages, hlt, needExit, hd]
        rw [hp]
        exact outcome_stopped w _ (stopped_poll w s h hd)
      | false =>
        cases hr : w.GetSources (needExit w s).2.step limit offset with
        | error err =>
          have hp : pages w limit count (f + 1) offset s =
              pages w limit count f (offset + limit)
                (Sleep w sleepTime ((((needExit w s).2).act w
                  (Action.GetSources limit offset (.error err)) 0).act w Action.logError 0)) := by
            have hr' := hr
            simp only [needExit, hd] at hr'
            simp [pages, hlt, needExit, hd, hr']
          rw [hp]
          apply ih
          refine running_act w _ (Action.Sleep sleepTime) sleepTime ?_ rfl (by simp) rfl
          refine running_act w _ Action.logError 0 ?_ rfl (by simp) rfl
          exact running_poll_page_error w s _ _ _ h hd
        | ok sources =>
          have hw := walking_poll_page_ok w s limit offset sources h hd
          have hp : pages w limit count (f + 1) offset s =
              (match (dispatchAll w sources (((needExit w s).2).act w
                  (Action.GetSources limit offset (.ok sources)) 0)).1 with
                | Ctl.completed => pages w limit count f (offset + limit)
                    (dispatchAll w sources (((needExit w s).2).act w
                      (Action.GetSources limit offset (.ok sources)) 0)).2
                | c => (c, (dispatchAll w sources (((needExit w s).2).act w
                      (Action.GetSources limit offset (.ok sources)) 0)).2)) := by
            have hr' := hr
            simp only [needExit, hd] at hr'
            simp [pages, hlt, needExit, hd, hr']
          rw [hp]
          rcases dispatchAll_outcome w sources _ hw with ⟨hc, hrun⟩ | ⟨hc, hblk⟩
          · rw [hc]
            exact ih _ _ hrun
          · rw [hc]
            exact outcome_blocked w _ hblk
    · have hp : pages w limit count (f + 1) offset s = (Ctl.completed, s) := by
        simp [pages, hlt]
      rw [hp]
      exact outcome_running w _ _ (by simp) (by simp) h

theorem cycle_outcome (w : World) (agg : aggService) (fuel : Nat) (startTime : Time) (s : Sched)
    (h : Running w s.trace) :
    Outcome w (cycle w agg fuel startTime s).1 (cycle w agg fuel startTime s).2.2.trace := by
  cases hd : w.done s.step with
  | true =>
    have hp : cycle w agg fuel startTime s = (Ctl.returned, startTime, (needExit w s).2) := by
      simp [cycle, needExit, hd]
    rw [hp]
    exact outcome_stopped w _ (stopped_poll w s h hd)
  | false =>
    cases hr : w.GetSourceCount (needExit w s).2.step with
    | error err =>
      have hp : cycle w agg fuel startTime s =
          (Ctl.completed, startTime,
            Sleep w sleepTime ((((needExit w s).2).act w
              (Action.GetSourceCount (.error err)) 0).act w Action.logError 0)) := by
        have hr' := hr
        simp only [needExit, hd] at hr'
        simp [cycle, needExit, hd, hr']
      rw [hp]
      refine outcome_running w _ _ (by simp) (by simp) ?_
      refine running_act w _ (Action.Sleep sleepTime) sleepTime ?_ rfl (by simp) rfl
      refine running_act w _ Action.logError 0 ?_ rfl (by simp) rfl
      exact running_poll_count w s _ h hd
    | ok count =>
      have hrun : Running w (((needExit w s).2).act w
          (Action.GetSourceCount (.ok count)) 0).trace :=
        running_poll_count w s _ h hd
      have hout := pages_outcome w agg.threads count fuel 0 _ hrun
      generalize hpg : pages w agg.threads count fuel 0
        (((needExit w s).2).act w (Action.GetSourceCount (.ok count)) 0) = p at hout
      have hr' := hr
      simp only [needExit, hd] at hr'
      simp only [needExit, hd] at hpg
      cases hc : p.1 with
      | completed =>
        have hp : cycle w agg fuel startTime s =
            (Ctl.completed,
              (if Before p.2.now (startTime + sleepTime) then Sleep w sleepTime p.2 else p.2).now,
              (if Before p.2.now (startTime + sleepTime) then Sleep w sleepTime p.2 else p.2)) := by
          simp [cycle, needExit, hd, hr', hpg, hc]
        rw [hp]
        have hrp : Running w p.2.trace := hout.2.2 (by rw [hc]; simp) (by rw [hc]; simp)
        refine outcome_running w _ _ (by simp) (by simp) ?_
        split
        · exact running_act w _ (Action.Sleep sleepTime) sleepTime hrp rfl (by simp) rfl
        · exact hrp
      | returned =>
        have hp : cycle w agg fuel startTime s = (Ctl.returned, startTime, p.2) := by
          simp [cycle, needExit, hd, hr', hpg, hc]
        rw [hp]
        rw [hc] at hout
        exact hout
      | blocked =>
        have hp : cycle w agg fuel startTime s = (Ctl.blocked, startTime, p.2) := by
          simp [cycle, needExit, hd, hr', hpg, hc]
        rw [hp]
        rw [hc] at hout
        exact hout
      | outOfFuel =>
        have hp : cycle w agg fuel startTime s = (Ctl.outOfFuel, startTime, p.2) := by
          simp [cycle, needExit, hd, hr', hpg, hc]
        rw [hp]
        rw [hc] at hout
        exact hout

theorem loopFrom_outcome (w : World) (agg : aggService) :
    ∀ (fuel : Nat) (startTime : Time) (s : Sched), Running w s.trace →
      Outcome w (loopFrom w agg fuel startTime s).1 (loopFrom w agg fuel startTime s).2.trace := by
  intro fuel
  induction fuel with
  | zero =>
    intro startTime s h
    exact outcome_running w _ _ (by simp [loopFrom]) (by simp [loopFrom])
      (by simpa [loopFrom] using h)
  | succ f ih =>
    intro startTime s h
    have hout := cycle_outcome w agg f startTime s h
    generalize hcy : cycle w agg f startTime s = c at hout
    cases hc : c.1 with
    | completed =>
      have hp : loopFrom w agg (f + 1) startTime s = loopFrom w agg f c.2.1 c.2.2 := by
        simp [loopFrom, hcy, hc]
      rw [hp]
      exact ih _ _ (hout.2.2 (by rw [hc]; simp) (by rw [hc]; simp))
    | returned =>
      have hp : loopFrom w agg (f + 1) startTime s = (Ctl.returned, c.2.2) := by
        simp [loopFrom, hcy, hc]
      rw [hp]
      rw [hc] at hout
      exact hout
    | blocked =>
      have hp : loopFrom w agg (f + 1) startTime s = (Ctl.blocked, c.2.2) := by
        simp [loopFrom, hcy, hc]
      rw [hp]
      rw [hc] at hout
      exact hout
    | outOfFuel =>
      have hp : loopFrom w agg (f + 1) startTime s = (Ctl.outOfFuel, c.2.2) := by
        simp [loopFrom, hcy, hc]
      rw [hp]
      rw [hc] at hout
      exact hout

theorem outcome_polled (w : World) (c : Ctl) (trace : List Entry) (h : Outcome w c trace) :
    PolledBeforeRequests w trace := by
  by_cases hc : c = Ctl.returned
  · obtain ⟨pre, last, rfl, hrun, hlast⟩ := h.1 hc
    exact polled_append w pre _ hrun.1 (fun e he => by
      simp only [List.mem_singleton] at he
      subst he
      rw [hlast]; rfl)
  · by_cases hb : c = Ctl.blocked
    · obtain ⟨pre, last, source, rest, rfl, hlast, _, _, hpol, _, _, _⟩ := h.2.1 hb
      exact polled_append w pre _ hpol (fun e he => by
        simp only [List.mem_singleton] at he
        subst he
        rw [hlast]; rfl)
    · exact (h.2.2 hc hb).1

theorem outcome_exit_last (w : World) (c : Ctl) (trace : List Entry) (h : Outcome w c trace) :
    ∀ e ∈ trace, e.action = Action.needExit true → c = Ctl.returned ∧ trace.getLast? = some e := by
  intro e he hact
  by_cases hc : c = Ctl.returned
  · obtain ⟨pre, last, rfl, hrun, _⟩ := h.1 hc
    rcases List.mem_append.1 he with he' | he'
    · exact absurd hact (hrun.2.1 e he').1
    · simp only [List.mem_singleton] at he'
      subst he'
      exact ⟨hc, List.getLast?_concat _⟩
  · by_cases hb : c = Ctl.blocked
    · obtain ⟨pre, last, source, rest, rfl, hlast, _, _, _, hclean, _, _⟩ := h.2.1 hb
      rcases List.mem_append.1 he with he' | he'
      · exact absurd hact (hclean e he').1
      · simp only [List.mem_singleton] at he'
        subst he'
        rw [hlast] at hact
        cases hact
    · exact absurd hact ((h.2.2 hc hb).2.1 e he).1

theorem outcome_sends (w : World) (c : Ctl) (trace : List Entry) (h : Outcome w c trace) :
    SendsFollow trace := by
  by_cases hc : c = Ctl.returned
  · obtain ⟨pre, last, rfl, hrun, hlast⟩ := h.1 hc
    exact sends_append pre _ hrun.2.2.1 (fun e he => by
      simp only [List.mem_singleton] at he
      subst he
      rw [hlast]; rfl)
  · by_cases hb : c = Ctl.blocked
    · obtain ⟨pre, last, source, rest, _, _, _, _, _, _, hs, _⟩ := h.2.1 hb
      exact hs
    · exact (h.2.2 hc hb).2.2.1

theorem outcome_handed (w : World) (c : Ctl) (trace : List Entry) (h : Outcome w c trace)
    (hb : c ≠ Ctl.blocked) : dispatched trace = (pageResults trace).flatten := by
  by_cases hc : c = Ctl.returned
  · obtain ⟨pre, last, rfl, hrun, hlast⟩ := h.1 hc
    rw [dispatched_append_other pre last (by rw [hlast]; rfl),
      pageResults_append_other pre last (by rw [hlast]; intro l o r hr; cases hr)]
    exact hrun.2.2.2
  · exact (h.2.2 hc hb).2.2.2

theorem outcome_stuck (w : World) (c : Ctl) (trace : List Entry) (h : Outcome w c trace)
    (hb : c = Ctl.blocked) :
    ∃ (last : Entry) (source : ModelSource) (rest : List ModelSource),
      trace.getLast? = some last ∧ last.action = Action.sendBlocked source ∧
      w.done last.step = true ∧ w.taken last.step = false ∧
      dispatched trace ++ source :: rest = (pageResults trace).flatten := by
  obtain ⟨pre, last, source, rest, rfl, hlast, hd, ht, _, _, _, heq⟩ := h.2.1 hb
  refine ⟨last, source, rest, List.getLast?_concat _, hlast, hd, ht, ?_⟩
  rw [dispatched_append_other pre last (by rw [hlast]; rfl),
    pageResults_append_other pre last (by rw [hlast]; intro l o r hr; cases hr)]
  exact heq

/-- C7 fails as stated: the scheduler does not poll `done` before each
hand-over.  When `done` is closed after the first source of a page has been
handed over and a worker still takes the next one, the scheduler hands over
the second source of the page all the same (action 5, with `done` closed),
then sleeps, and notices the cancellation only at its next poll.  When no
worker takes it, the scheduler makes the send all the same and stays blocked
in it: it does not return. -/
theorem dispatch_after_cancellation :
    ((loop cancelWorld (New 2 0) 3 0).2.trace.map
        (fun e => (e.step, cancelWorld.done e.step, e.action)) =
      [(0, false, Action.needExit false),
       (1, false, Action.GetSourceCount (.ok 2)),
       (2, false, Action.needExit false),
       (3, false, Action.GetSources 2 0 (.ok [src 1, src 2])),
       (4, false, Action.dispatch (src 1)),
       (5, true, Action.dispatch (src 2)),
       (6, true, Action.Sleep sleepTime),
       (7, true, Action.needExit true)] ∧
     ¬ (∀ e ∈ (loop cancelWorld (New 2 0) 3 0).2.trace,
        cancelWorld.done e.step = true → e.action.isDispatch = false)) ∧
    ((loop cancelWorldNoTaker (New 2 0) 3 0).1 = Ctl.blocked ∧
     (loop cancelWorldNoTaker (New 2 0) 3 0).2.trace.map
        (fun e => (e.step, cancelWorldNoTaker.done e.step, e.action)) =
      [(0, false, Action.needExit false),
       (1, false, Action.GetSourceCount (.ok 2)),
       (2, false, Action.needExit false),
       (3, false, Action.GetSources 2 0 (.ok [src 1, src 2])),
       (4, false, Action.dispatch (src 1)),
       (5, true, Action.sendBlocked (src 2))]) := by
  decide

/-- C7, amended: the scheduler polls `done` at the top of every turn and at
every page boundary, not before each hand-over.  Every request for the count
or for a page comes right after a poll that found `done` open; so once `done`
is closed for good, no count and no page is requested any more; and a poll
that finds `done` closed is the last action: the scheduler returns at once.
Between the sends of a page there is no poll: every send comes right after the
page request or right after the send before it.  Unless the scheduler stays
blocked in a send, every source of every page brought back has been handed
over, in order, whether or not `done` was closed meanwhile.  The scheduler
stays blocked only in a send made with `done` closed that no worker takes, and
that send is of the next source of the page it is walking. -/
theorem loop_polls_before_requests (w : World) (agg : aggService) (fuel : Nat) (t0 : Time) :
    PolledBeforeRequests w (loop w agg fuel t0).2.trace ∧
    (∀ c : Nat, (∀ k, c ≤ k → w.done k = true) →
      ∀ e ∈ (loop w agg fuel t0).2.trace, c < e.step → e.action.isRequest = false) ∧
    (∀ e ∈ (loop w agg fuel t0).2.trace, e.action = Action.needExit true →
      (loop w agg fuel t0).1 = Ctl.returned ∧ (loop w agg fuel t0).2.trace.getLast? = some e) ∧
    SendsFollow (loop w agg fuel t0).2.trace ∧
    ((loop w agg fuel t0).1 ≠ Ctl.blocked →
      dispatched (loop w agg fuel t0).2.trace =
        (pageResults (loop w agg fuel t0).2.trace).flatten) ∧
    ((loop w agg fuel t0).1 = Ctl.blocked →
      ∃ (last : Entry) (source : ModelSource) (rest : List ModelSource),
        (loop w agg fuel t0).2.trace.getLast? = some last ∧
        last.action = Action.sendBlocked source ∧
        w.done last.step = true ∧ w.taken last.step = false ∧
        dispatched (loop w agg fuel t0).2.trace ++ source :: rest =
          (pageResults (loop w agg fuel t0).2.trace).flatten) := by
  have hinit : Running w ({ step := 0, now := t0, trace := [] } : Sched).trace :=
    ⟨fun e he => (by simp at he), fun e he => (by simp at he), fun e he => (by simp at he), rfl⟩
  have hout := loopFrom_outcome w agg fuel t0 _ hinit
  have hpol := outcome_polled w _ _ hout
  refine ⟨hpol, ?_, outcome_exit_last w _ _ hout, outcome_sends w _ _ hout,
    outcome_handed w _ _ hout, outcome_stuck w _ _ hout⟩
  intro c hc e he hlt
  by_contra hreq
  have hreq' : e.action.isRequest = true := by
    cases h : e.action.isRequest
    · exact absurd h hreq
    · rfl
  obtain ⟨p, _, hstep, _, hopen⟩ := hpol e he hreq'
  have := hc p.step (by omega)
  rw [this] at hopen
  cases hopen

theorem loop_polls_before_requests_witness :
    SendsFollow (loop cancelWorld (New 2 0) 3 0).2.trace ∧
    dispatched (loop cancelWorld (New 2 0) 3 0).2.trace = [src 1, src 2] :=
  ⟨(loop_polls_before_requests cancelWorld (New 2 0) 3 0).2.2.2.1,
    ((loop_polls_before_requests cancelWorld (New 2 0) 3 0).2.2.2.2.1 (by decide)).trans
      (by decide)⟩

/-- C6 fails as stated: the request for the first page fails; after the log
and the sleep the scheduler polls `done` and requests the next page of the same
turn (offset 2) and hands over its sources; it does not start a new turn with
a count and offset 0. -/
theorem page_failure_continues_with_next_page :
    (cycle failingPageWorld (New 2 0) 5 0 { step := 0, now := 0, trace := [] }).2.2.trace.map
        (fun e => e.action) =
      [Action.needExit false,
       Action.GetSourceCount (.ok 4),
       Action.needExit false,
       Action.GetSources 2 0 (.error Err.external),
       Action.logError,
       Action.Sleep sleepTime,
       Action.needExit false,
       Action.GetSources 2 2 (.ok [src 3, src 4]),
       Action.dispatch (src 3),
       Action.dispatch (src 4)] := by
  decide

/-- C6, amended: a failed page request does not end the turn.  The error is
logged, the fixed sleep is taken, and the loop goes on with the offset advanced
by the limit.  So, without cancellation, the page loop runs to its end and
requests every page of the turn, at the offsets 0, n, 2n, ... below the count,
whichever of the requests fail; the sources handed over are those of the pages
whose request succeeded. -/
theorem page_failure_skips_one_page (w : World) (n c fuel : Nat) (s : Sched)
    (hdone : ∀ k, w.done k = false) (h1n : 1 ≤ n) (hfuel : c < fuel) :
    (∀ (f : Nat) (offset : Int) (err : Err), offset < (c : Int) →
      w.GetSources (s.step + 1) (n : Int) offset = .error err →
      pages w (n : Int) (c : Int) (f + 1) offset s =
        pages w (n : Int) (c : Int) f (offset + (n : Int))
          (Sleep w sleepTime (((s.act w (Action.needExit false) 0).act w
            (Action.GetSources (n : Int) offset (.error err)) 0).act w Action.logError 0))) ∧
    ∃ (s' : Sched) (new : List Entry),
      pages w (n : Int) (c : Int) fuel 0 s = (Ctl.completed, s') ∧
      s'.trace = s.trace ++ new ∧
      pageRequests new =
        (List.range ((c + n - 1) / n)).map (fun j => ((n : Int), ((j * n : Nat) : Int))) ∧
      dispatched new = (pageResults new).flatten := by
  constructor
  · intro f offset err hlt herr
    have herr' : w.GetSources (s.act w (Action.needExit false) 0).step (n : Int) offset =
        .error err := herr
    simp [pages, hlt, needExit, hdone, herr']
  · obtain ⟨hc1, hc2, hc3⟩ := ceil_pages n c h1n
    obtain ⟨s', new, p1, p2, p3, p4, _, _⟩ :=
      pages_run w hdone n c ((c + n - 1) / n) 0 fuel s (by omega) hc1 hc2
    simp only [Nat.zero_mul, Nat.cast_zero] at p1
    rw [range'_zero_eq_range] at p3
    exact ⟨s', new, p1, p2, p3, p4⟩

theorem page_failure_skips_one_page_witness :
    ∃ (s' : Sched) (new : List Entry),
      pages failingPageWorld ((2 : Nat) : Int) ((4 : Nat) : Int) 5 0
        { step := 2, now := 0, trace := [] } = (Ctl.completed, s') ∧
      s'.trace = ({ step := 2, now := 0, trace := [] } : Sched).trace ++ new ∧
      pageRequests new =
        (List.range ((4 + 2 - 1) / 2)).map (fun j => (((2 : Nat) : Int), ((j * 2 : Nat) : Int))) ∧
      dispatched new = (pageResults new).flatten :=
  (page_failure_skips_one_page failingPageWorld 2 4 5 { step := 2, now := 0, trace := [] }
    (fun _ => rfl) (by decide) (by decide)).2

/-- C5 on the code: the first count query fails and the fixed sleep is taken;
the next two full passes then start 5 milliseconds apart, the one right after
the other, because `startTime` still holds the time before the failed query.
The single source is handed over twice within that time. -/
theorem passes_back_to_back_after_count_failure :
    (loop countFailsOnceWorld (New 1 0) 4 0).2.trace.map (fun e => (e.time, e.action)) =
      [(0, Action.needExit false),
       (1000000, Action.GetSourceCount (.error Err.external)),
       (2000000, Action.logError),
       (3000000, Action.Sleep sleepTime),
       (5004000000, Action.needExit false),
       (5005000000, Action.GetSourceCount (.ok 1)),
       (5006000000, Action.needExit false),
       (5007000000, Action.GetSources 1 0 (.ok [src 1])),
       (5008000000, Action.dispatch (src 1)),
       (5009000000, Action.needExit false),
       (5010000000, Action.GetSourceCount (.ok 1)),
       (5011000000, Action.needExit false),
       (5012000000, Action.GetSources 1 0 (.ok [src 1])),
       (5013000000, Action.dispatch (src 1))] ∧
    passStarts (loop countFailsOnceWorld (New 1 0) 4 0).2.trace = [5005000000, 5010000000] ∧
    ¬ (∀ p ∈ (passStarts (loop countFailsOnceWorld (New 1 0) 4 0).2.trace).zip
          (passStarts (loop countFailsOnceWorld (New 1 0) 4 0).2.trace).tail,
        p.1 + sleepTime ≤ p.2) := by
  decide

end RssViewer
